import Mathlib

/-!
# pg-gsheets: the batched writer and the typed reader of `src/gsheets.c`

A shallow embedding of the C source.

* C strings are lists of characters (`CStr`).
* `int` counters are integers wrapped to 32 bits after every arithmetic step (`int32`),
  the behaviour of signed arithmetic in a PostgreSQL build.
* The transport (`http_get`, `http_post`, `http_put`) is a log of the calls made, oldest first;
  the replies of the remote service are parameters of the functions that read them.
* A `jsonb` value is a tree (`Jsonb`); `JsonbIteratorNext(&it, &v, false)` is the list of
  tokens `Jsonb.tokens` produces, `WJB_DONE` being the end of the list.
* `ereport(ERROR, ...)` and reads outside an allocation are the `Except.error` results.
* The runs covered are those in which the transport answers and memory is available: a failed
  transfer or a failed allocation ends the call with an error before anything else happens.
* The library functions of PostgreSQL the source calls (`int4in`, `boolin`, the type output
  functions, `jsonb_get_element`, `tuplestore_putvalues`) are described by what they do on the
  inputs the source hands them; `date_in` and `JsonbToCString` are parameters.
-/

namespace GSheets

/-- A NUL-terminated C string. -/
abbrev CStr := List Char

/-- Arithmetic on `int`: the result of an operation, wrapped to 32 bits two's complement. -/
def int32 (x : Int) : Int := (x + 2147483648) % 4294967296 - 2147483648

/-- Failures: the `ereport(ERROR, ...)` calls of the source, by error code, and the reads the
source makes outside what it allocated. -/
inductive Err where
  | INVALID_PARAMETER_VALUE (errmsg : String)
  | NUMERIC_VALUE_OUT_OF_RANGE
  | INVALID_TEXT_REPRESENTATION
  | out_of_bounds (what : String)
  | null_state
deriving DecidableEq, Repr

deriving instance DecidableEq for Except

/-! ## jsonb values and the token iterator -/

/-- Scalar `JsonbValue`s. -/
inductive Scalar where
  | jbvNull
  | jbvString (s : CStr)
  | jbvNumeric (n : CStr)
  | jbvBool (b : Bool)
deriving DecidableEq, Repr

/-- A `jsonb` document. The members of an object are listed in the order the iterator visits
them (jsonb stores the keys of an object sorted by length, then bytewise). -/
inductive Jsonb where
  | scalar (s : Scalar)
  | array (elems : List Jsonb)
  | object (pairs : List (CStr × Jsonb))

/-- What one call of `JsonbIteratorNext(&it, &v, false)` returns: the token `r` together with
the part of `v` the source reads for that token. -/
inductive Tok where
  | WJB_KEY (key : CStr)
  | WJB_VALUE (v : Scalar)
  | WJB_ELEM (v : Scalar)
  | WJB_BEGIN_ARRAY (nElems : Nat)
  | WJB_END_ARRAY
  | WJB_BEGIN_OBJECT (nPairs : Nat)
  | WJB_END_OBJECT
deriving DecidableEq, Repr

mutual
/-- Tokens of a container; a nested container opens directly with its `BEGIN` token. -/
def Jsonb.container : Jsonb → List Tok
  | .scalar _ => []
  | .array es => Tok.WJB_BEGIN_ARRAY es.length :: Jsonb.elems es ++ [Tok.WJB_END_ARRAY]
  | .object ps => Tok.WJB_BEGIN_OBJECT ps.length :: Jsonb.pairs ps ++ [Tok.WJB_END_OBJECT]
/-- Tokens of the elements of an array. -/
def Jsonb.elems : List Jsonb → List Tok
  | [] => []
  | .scalar s :: t => Tok.WJB_ELEM s :: Jsonb.elems t
  | j :: t => Jsonb.container j ++ Jsonb.elems t
/-- Tokens of the members of an object. -/
def Jsonb.pairs : List (CStr × Jsonb) → List Tok
  | [] => []
  | (k, .scalar s) :: t => Tok.WJB_KEY k :: Tok.WJB_VALUE s :: Jsonb.pairs t
  | (k, j) :: t => Tok.WJB_KEY k :: (Jsonb.container j ++ Jsonb.pairs t)
end

/-- The token sequence of `JsonbIteratorInit(&jb->root)` followed by `JsonbIteratorNext` until
`WJB_DONE`. A scalar at the root is stored as a one-element array. -/
def Jsonb.tokens : Jsonb → List Tok
  | .scalar s => [Tok.WJB_BEGIN_ARRAY 1, Tok.WJB_ELEM s, Tok.WJB_END_ARRAY]
  | j => Jsonb.container j

/-- The text `pnstrdup(v.val.string.val, v.val.string.len)` of a string scalar. For the other
scalar kinds the source reads the string member of a union that holds another member; the
model yields the empty text there. -/
def Scalar.string_val : Scalar → CStr
  | .jbvString s => s
  | _ => []

/-! ## Transport and configuration -/

/-- The three transport operations. -/
inductive Method where
  | GET
  | POST
  | PUT
deriving DecidableEq, Repr

/-- One call of `http_get`, `http_post` or `http_put`, with the arguments it was handed. -/
structure HttpCall where
  method : Method
  url : CStr
  data : CStr
  params : List CStr
  headers : List CStr
deriving DecidableEq, Repr

/-- The settings `gsheets.access_token` and `gsheets.enable_infer_types`, and the title
`create_new_sheet` builds from the local time when no spreadsheet name is given. -/
structure Env where
  access_token : Option CStr
  enable_infer_types : Bool
  clock_title : CStr

/-- The conversion `%s` of `psprintf`; a NULL pointer prints as `(null)`. -/
def fmt_s : Option CStr → CStr
  | some s => s
  | none => "(null)".toList

/-- The conversion `%d` of `psprintf`. -/
def fmt_d (i : Int) : CStr := (toString i).toList

def BASE_URL : CStr := "https://sheets.googleapis.com/v4/spreadsheets".toList

/-- The macro `SHEET_URL(id, range)`. -/
def SHEET_URL (id : Option CStr) (range : CStr) : CStr :=
  BASE_URL ++ '/' :: fmt_s id ++ "/values/".toList ++ range

/-- The macro `METADATA_URL(id)`. -/
def METADATA_URL (id : Option CStr) : CStr := BASE_URL ++ '/' :: fmt_s id

/-- Appends `key: value`, cut to the 255 characters the local buffer holds. -/
def add_header (headers : List CStr) (header_key header_value : CStr) : List CStr :=
  headers ++ [(header_key ++ ": ".toList ++ header_value).take 255]

/-- The two headers `write_to_gsheet` and `create_new_sheet` send. -/
def auth_headers (env : Env) : List CStr :=
  add_header (add_header [] "Authorization".toList ("Bearer ".toList ++ fmt_s env.access_token))
    "Content-Type".toList "application/json".toList

/-! ## URL and identifier utilities -/

/-- The function `strstr`: the tail of `s` that starts at the first occurrence of `needle`. -/
def strstr (s needle : CStr) : Option CStr :=
  match s with
  | [] => if needle = [] then some [] else none
  | c :: t => if needle.isPrefixOf (c :: t) then some (c :: t) else strstr t needle

/-- The function `strchr`: the tail of `s` that starts at the first occurrence of `c`. -/
def strchr (s : CStr) (c : Char) : Option CStr :=
  match s with
  | [] => none
  | d :: t => if d = c then some (d :: t) else strchr t c

def extract_id (url : CStr) : Except Err CStr :=
  match strstr url "/d/".toList with
  | none => .error (.INVALID_PARAMETER_VALUE "invalid URL")
  | some at_d =>
    let start := at_d.drop 3
    let id_length : Nat :=
      match strchr start '/' with
      | some e => start.length - e.length
      | none => start.length
    if id_length ≠ 44 then .error (.INVALID_PARAMETER_VALUE "Invalid Sheet id")
    else .ok (start.take id_length)

def validate_url (url : CStr) : Bool :=
  match strstr url "https://docs.google.com/spreadsheets/".toList with
  | none => false
  | some _ => true

/-! ## The write buffer -/

def remove_trailing_comma (buff : CStr) : CStr :=
  if buff.getLast? = some ',' then buff.dropLast else buff

/-- The buffer after `initialize_buffer`: `initStringInfo` empties it, then the opening of the
object is appended. -/
def initialize_buffer : CStr := '\x7b' :: "\"values\": [".toList

def close_buffer (buff : CStr) : CStr :=
  remove_trailing_comma buff ++ [']', '\x7d']

/-! ## The write session -/

structure write_state where
  tcount : Int
  count : Int
  sheet_name : CStr
  spreadsheet_id : Option CStr
  buff : CStr
deriving DecidableEq, Repr

def write_to_gsheet (env : Env) (state : write_state) (log : List HttpCall) : List HttpCall :=
  let start_range := int32 (int32 (state.tcount - state.count) + 1)
  log ++ [{ method := .PUT,
            url := SHEET_URL state.spreadsheet_id
                     (state.sheet_name ++ "!A".toList ++ fmt_d start_range),
            data := state.buff,
            params := ["valueInputOption=USER_ENTERED".toList],
            headers := auth_headers env }]

/-- What the options object yields: the results of `extract_text_from_jsonb` for the three
text fields, and for `header` the text `JsonbToCString` renders when the member is an array or
an object (`jbvBinary`). A scalar `header` member makes `write_header` read the array member
of a scalar value; that case has no defined behaviour and no representation here. -/
structure Options where
  spreadsheet_id : Option CStr
  sheet_name : Option CStr
  spreadsheet_name : Option CStr
  header : Option CStr

/-- A variadic argument after the data argument: a non-null `jsonb`, or anything else. -/
inductive OptionsArg where
  | jsonb (o : Options)
  | other

def write_header (jb : Options) (state : write_state) : write_state :=
  match jb.header with
  | none => state
  | some text =>
    { state with
      buff := state.buff ++ text ++ [','],
      count := int32 (state.count + 1),
      tcount := int32 (state.tcount + 1) }

/-- The loop of `create_new_sheet` over the tokens of the creation response: the value that
follows the first key `spreadsheetId` which is followed by a scalar; the token read after a
matching key is consumed whatever it is. -/
def find_spreadsheetId : List Tok → Option CStr
  | [] => none
  | [_] => none
  | Tok.WJB_KEY key :: nxt :: rest =>
    if key = "spreadsheetId".toList then
      match nxt with
      | Tok.WJB_VALUE v => some v.string_val
      | _ => find_spreadsheetId rest
    else find_spreadsheetId (nxt :: rest)
  | _ :: nxt :: rest => find_spreadsheetId (nxt :: rest)

/-- The body `create_new_sheet` posts. -/
def create_body (title : CStr) : CStr :=
  "\x7b\"properties\": \x7b\"title\": \"".toList ++ title ++
  "\"\x7d, \"sheets\": [\x7b\"properties\": \x7b\"title\": \"Sheet1\", \"gridProperties\": \x7b\"rowCount\": 100000, \"columnCount\": 26\x7d\x7d\x7d]\x7d".toList

/-- The function `create_new_sheet`: posts the creation request and, when the walk finds the
identifier, stores it; otherwise `*spreadsheet_id` keeps the value it had. `response` is the
parsed reply of the transport. -/
def create_new_sheet (env : Env) (spreadsheet_id : Option CStr) (spreadsheet_name : Option CStr)
    (response : Jsonb) (log : List HttpCall) : Option CStr × List HttpCall :=
  let title := match spreadsheet_name with
    | some n => n
    | none => env.clock_title
  let log := log ++ [{ method := .POST, url := BASE_URL, data := create_body title,
                       params := [], headers := auth_headers env }]
  match find_spreadsheetId response.tokens with
  | some id => (some id, log)
  | none => (spreadsheet_id, log)

/-- The data argument of the transition function: a record whose fields are given by the text
their type output function renders (`none` for a null field), or a single scalar. -/
inductive DataArg where
  | record (fields : List (Option CStr))
  | scalar (val : Option CStr)
deriving DecidableEq, Repr

/-- The text `val` of a field: empty for a null. -/
def field_val : Option CStr → CStr
  | some s => s
  | none => []

/-- The loop over the attributes of a record: every field between double quotes, a comma after
each but the last. -/
def append_fields : List (Option CStr) → CStr
  | [] => []
  | [f] => '"' :: field_val f ++ ['"']
  | f :: g :: t => '"' :: field_val f ++ ['"', ','] ++ append_fields (g :: t)

/-- What one transition appends for its data argument, brackets included. -/
def append_data : DataArg → CStr
  | .record fields => '[' :: append_fields fields ++ [']']
  | .scalar val => '[' :: '"' :: field_val val ++ ['"', ']']

/-- The branch of `write_sheet_transition` taken when the state argument is NULL.
`rest` holds the variadic arguments after the data argument, `response` the reply to the
creation request should one be made. -/
def init_state (env : Env) (rest : List OptionsArg) (response : Jsonb) (log : List HttpCall) :
    Except Err (write_state × List HttpCall) :=
  let nargs := 1 + rest.length
  if nargs < 1 ∨ nargs > 2 then .error (.INVALID_PARAMETER_VALUE "Invalid number of arguments")
  else
    match rest with
    | [OptionsArg.other] => .error (.INVALID_PARAMETER_VALUE "Options must be a JSONB object")
    | _ =>
      let opts : Option Options := match rest with
        | [OptionsArg.jsonb o] => some o
        | _ => none
      let spreadsheet_id := opts.bind (·.spreadsheet_id)
      let sheet_name := opts.bind (·.sheet_name)
      let spreadsheet_name := opts.bind (·.spreadsheet_name)
      let sheet_name := match sheet_name with
        | some n => n
        | none => "Sheet1".toList
      let created : Except Err (Option CStr × List HttpCall) :=
        match spreadsheet_id with
        | none => .ok (create_new_sheet env none spreadsheet_name response log)
        | some id =>
          if id.length ≠ 44 then .error (.INVALID_PARAMETER_VALUE "Invalid sheet id")
          else .ok (some id, log)
      match created with
      | .error e => .error e
      | .ok (id, log) =>
        let state : write_state :=
          { tcount := 0, count := 0, sheet_name := sheet_name, spreadsheet_id := id,
            buff := initialize_buffer }
        match opts with
        | some o => .ok (write_header o state, log)
        | none => .ok (state, log)

/-- The part of `write_sheet_transition` after the state is at hand: serialise the data
argument, count it, and flush when the batch holds 2000 rows. -/
def append_row (env : Env) (state : write_state) (log : List HttpCall) (data : DataArg) :
    write_state × List HttpCall :=
  let state := { state with buff := state.buff ++ append_data data }
  let state := { state with tcount := int32 (state.tcount + 1) }
  let state := { state with count := int32 (state.count + 1) }
  if state.count ≥ 2000 then
    let state := { state with buff := close_buffer state.buff }
    let log := write_to_gsheet env state log
    ({ state with count := 0, buff := initialize_buffer }, log)
  else
    ({ state with buff := state.buff ++ [','] }, log)

def write_sheet_transition (env : Env) (state : Option write_state) (log : List HttpCall)
    (data : DataArg) (rest : List OptionsArg) (response : Jsonb) :
    Except Err (write_state × List HttpCall) :=
  match state with
  | none =>
    match init_state env rest response log with
    | .error e => .error e
    | .ok (st, log) => .ok (append_row env st log data)
  | some st => .ok (append_row env st log data)

/-- The function `write_sheet_final`: the last flush, and the notice it logs. -/
def write_sheet_final (env : Env) (state : write_state) (log : List HttpCall) :
    List HttpCall × CStr :=
  let state := { state with buff := close_buffer state.buff }
  let log := write_to_gsheet env state log
  (log, fmt_d state.tcount ++ " rows written at ".toList ++
        ("https://docs.google.com/spreadsheets/d/".toList ++ fmt_s state.spreadsheet_id))

/-- The transition function folded over the rows of a stream, the state starting NULL. -/
def write_rows (env : Env) (rest : List OptionsArg) (response : Jsonb) :
    Option write_state × List HttpCall → List DataArg →
    Except Err (Option write_state × List HttpCall)
  | acc, [] => .ok acc
  | (state, log), data :: more =>
    match write_sheet_transition env state log data rest response with
    | .error e => .error e
    | .ok (st, log) => write_rows env rest response (some st, log) more

/-- A write session: the aggregate over a stream of rows, then the final function. The final
function reads through its state pointer, which is NULL when no row was fed. -/
def write_session (env : Env) (rest : List OptionsArg) (response : Jsonb)
    (rows : List DataArg) : Except Err (List HttpCall × CStr) :=
  match write_rows env rest response (none, []) rows with
  | .error e => .error e
  | .ok (none, _) => .error .null_state
  | .ok (some st, log) => .ok (write_sheet_final env st log)

/-- The calls of a log made with `http_put`. -/
def puts (log : List HttpCall) : List HttpCall := log.filter (fun c => c.method = .PUT)

/-! ## Type inference -/

/-- The type identifiers the reader uses. -/
inductive Oid where
  | INT8OID
  | BOOLOID
  | TEXTOID
  | DATEOID
deriving DecidableEq, Repr

/-- The list function `list_truncate`: an empty list when the new size is not positive. -/
def list_truncate (l : List Oid) (new_size : Int) : List Oid :=
  if new_size ≤ 0 then [] else l.take new_size.toNat

/-- The body of the loop of `infer_types` for one token. -/
def infer_step (types : List Oid) : Tok → List Oid
  | .WJB_KEY key =>
    if key = "numberValue".toList then types ++ [Oid.INT8OID]
    else if key = "boolValue".toList then types ++ [Oid.BOOLOID]
    else if key = "stringValue".toList then types ++ [Oid.TEXTOID]
    else types
  | .WJB_VALUE v =>
    if v.string_val = "DATE".toList then
      list_truncate types ((types.length : Int) - 1) ++ [Oid.DATEOID]
    else types
  | _ => types

/-- The loop of `infer_types` over the tokens of the sampled row. -/
def infer_walk (values : Jsonb) : List Oid := values.tokens.foldl infer_step []

/-- An array index written in decimal digits. -/
def path_index (k : CStr) : Option Nat :=
  if k ≠ [] ∧ k.all Char.isDigit then some (k.foldl (fun a c => 10 * a + (c.toNat - 48)) 0)
  else none

/-- The library function `jsonb_get_element` for a path of texts: a key in an object, a
position in an array; `none` where the path leads nowhere. -/
def jsonb_get_element : List CStr → Jsonb → Option Jsonb
  | [], j => some j
  | k :: rest, .object ps =>
    match ps.find? (fun p => p.1 = k) with
    | some p => jsonb_get_element rest p.2
    | none => none
  | k :: rest, .array es =>
    match path_index k with
    | some i =>
      match es.get? i with
      | some e => jsonb_get_element rest e
      | none => none
    | none => none
  | _ :: _, .scalar _ => none

/-- The path `infer_types` follows to the cells of the sampled row. -/
def values_path : List CStr :=
  ["sheets".toList, "0".toList, "data".toList, "0".toList, "rowData".toList, "0".toList,
   "values".toList]

def TYPEINFER_FIELDS : CStr :=
  "sheets(data(rowData(values(userEnteredFormat%2FnumberFormat%2CuserEnteredValue))%2CstartColumn%2CstartRow))".toList

/-- The function `http_get` of the transport helpers: it appends `params[i]` to the address
for every `i` below `params_count`, then performs the request. A count above the number of
elements of the array makes it read past the array. -/
def http_get (url : CStr) (params : List CStr) (params_count : Nat) (headers : List CStr)
    (log : List HttpCall) : Except Err (List HttpCall) :=
  if params_count ≤ params.length then
    .ok (log ++ [{ method := .GET, url := url, data := [], params := params.take params_count,
                   headers := headers }])
  else .error (.out_of_bounds "params")

/-- The function `infer_types`: one metadata request, then the walk over the cells of the
sampled row. `response` is the parsed reply. The source hands `http_get` its array of two
parameters with a count of 3. A reply without the path makes the source read through a NULL
pointer. -/
def infer_types (id : Option CStr) (sheet : CStr) (has_header : Bool) (response : Jsonb)
    (log : List HttpCall) : Except Err (List Oid × List HttpCall) :=
  let params := ["ranges=".toList ++ sheet ++ "!A".toList ++ fmt_d (if has_header then 2 else 1)
                   ++ ":Z".toList,
                 "fields=".toList ++ TYPEINFER_FIELDS]
  match http_get (METADATA_URL id) params 3 [] log with
  | .error e => .error e
  | .ok log =>
    match jsonb_get_element values_path response with
    | none => .error (.out_of_bounds "values")
    | some values => .ok (infer_walk values, log)

/-! ## The cell codec -/

/-- A value of a result column. `int4in` yields a 32-bit integer, which the source stores in
the 64-bit column as it is. -/
inductive Datum where
  | int (i : Int)
  | bool (b : Bool)
  | date (days : Int)
  | text (s : CStr)
deriving DecidableEq, Repr

/-- The C function `isspace`. -/
def isspace (c : Char) : Bool :=
  c = ' ' || c = '\t' || c = '\n' || c = '\r' || c = '\x0b' || c = '\x0c'

/-- The value of a run of decimal digits. -/
def digits_value (ds : CStr) : Nat := ds.foldl (fun a c => 10 * a + (c.toNat - 48)) 0

/-- The input function `int4in` of PostgreSQL, for the decimal syntax: optional blanks, an
optional sign, digits, optional blanks; a value outside 32 bits is an error. -/
def int4in (s : CStr) : Except Err Int :=
  let s := s.dropWhile isspace
  let signed : Bool × CStr := match s with
    | '-' :: t => (true, t)
    | '+' :: t => (false, t)
    | _ => (false, s)
  let ds := signed.2.takeWhile Char.isDigit
  let tail := (signed.2.dropWhile Char.isDigit).dropWhile isspace
  if ds = [] ∨ tail ≠ [] then .error .INVALID_TEXT_REPRESENTATION
  else
    let v : Int := if signed.1 then - (digits_value ds : Int) else (digits_value ds : Int)
    if v < -2147483648 ∨ v > 2147483647 then .error .NUMERIC_VALUE_OUT_OF_RANGE
    else .ok v

/-- The input function `boolin` of PostgreSQL: surrounding blanks are dropped, then a
non-empty beginning of `true`, `false`, `yes` or `no`, one of `on`, `of`, `off`, or `1` or `0`
is accepted, in either case of letters. -/
def boolin (s : CStr) : Except Err Bool :=
  let t := ((s.dropWhile isspace).reverse.dropWhile isspace).reverse.map Char.toLower
  if t = [] then .error .INVALID_TEXT_REPRESENTATION
  else if t.isPrefixOf "true".toList then .ok true
  else if t.isPrefixOf "false".toList then .ok false
  else if t.isPrefixOf "yes".toList then .ok true
  else if t.isPrefixOf "no".toList then .ok false
  else if t = "on".toList then .ok true
  else if t = "of".toList ∨ t = "off".toList then .ok false
  else if t = "1".toList then .ok true
  else if t = "0".toList then .ok false
  else .error .INVALID_TEXT_REPRESENTATION

/-- A typed value handed to the writer, for the three types the reader infers besides dates:
a 64-bit integer, a boolean, a text. -/
inductive Value where
  | int8 (i : Int)
  | bool (b : Bool)
  | text (s : CStr)
deriving DecidableEq, Repr

/-- The text `OidOutputFunctionCall` renders (`int8out`, `boolout`, `textout`). -/
def output_text : Value → CStr
  | .int8 i => (toString i).toList
  | .bool b => if b then ['t'] else ['f']
  | .text s => s

/-- The column tag of a value: what `infer_types` assigns to a cell of that kind. -/
def Value.tag : Value → Oid
  | .int8 _ => .INT8OID
  | .bool _ => .BOOLOID
  | .text _ => .TEXTOID

/-- The value as a result column holds it. -/
def Value.datum : Value → Datum
  | .int8 i => .int i
  | .bool b => .bool b
  | .text s => .text s

/-- The decoding of one cell in `read_sheet` when types are inferred: the branch on the type
of the column. `date_in` is the date input function of PostgreSQL. -/
def decode_cell (date_in : CStr → Except Err Int) (typid : Oid) (val : CStr) :
    Except Err Datum :=
  match typid with
  | .INT8OID => (int4in val).map Datum.int
  | .BOOLOID => (boolin val).map Datum.bool
  | .DATEOID => (date_in val).map Datum.date
  | .TEXTOID => .ok (Datum.text val)

/-! ## The read session -/

/-- The function `list_nth_oid`; a position past the end is a read outside the list. -/
def list_nth_oid (l : List Oid) (n : Nat) : Except Err Oid :=
  match l.get? n with
  | some t => .ok t
  | none => .error (.out_of_bounds "list_nth_oid")

/-- The local variables of `read_sheet` its loop changes. `values` is the array allocated for
the current row, `none` marking a slot not yet written; `setDesc` is the tuple descriptor,
one type per column; `tupstore` holds the rows emitted so far. -/
structure read_state where
  nElems : Nat
  is_row : Bool
  col : Nat
  values : List (Option Datum)
  types : List Oid
  setDesc : Option (List Oid)
  tupstore : List (List Datum)
  log : List HttpCall
deriving DecidableEq, Repr

/-- The loop that fills the tuple descriptor, columns `i` to `nElems - 1`; with inference on,
every column makes its own call of `infer_types`. -/
def build_tupdesc (env : Env) (id : Option CStr) (sheet : CStr) (header : Bool) (sample : Jsonb) :
    (todo : Nat) → (i : Nat) → List Oid → List HttpCall →
    Except Err (List Oid × List Oid × List HttpCall)
  | 0, _, types, log => .ok ([], types, log)
  | todo + 1, i, types, log =>
    if env.enable_infer_types then
      match infer_types id sheet header sample log with
      | .error e => .error e
      | .ok (types, log) =>
        match list_nth_oid types i with
        | .error e => .error e
        | .ok typid =>
          match build_tupdesc env id sheet header sample todo (i + 1) types log with
          | .error e => .error e
          | .ok (desc, types, log) => .ok (typid :: desc, types, log)
    else
      match build_tupdesc env id sheet header sample todo (i + 1) types log with
      | .error e => .error e
      | .ok (desc, types, log) => .ok (Oid.TEXTOID :: desc, types, log)

/-- The values of slots that have all been written; `none` if one has not. -/
def written_values : List (Option Datum) → Option (List Datum)
  | [] => some []
  | none :: _ => none
  | some d :: t =>
    match written_values t with
    | some row => some (d :: row)
    | none => none

/-- The library function `tuplestore_putvalues`: forms a row from the first `natts` slots of
the arrays; slots past the allocation or never written are reads of foreign memory. -/
def tuplestore_putvalues (setDesc : Option (List Oid)) (values : List (Option Datum)) :
    Except Err (List Datum) :=
  match setDesc with
  | none => .error (.out_of_bounds "setDesc")
  | some desc =>
    if values.length < desc.length then .error (.out_of_bounds "values")
    else
      match written_values (values.take desc.length) with
      | some row => .ok row
      | none => .error (.out_of_bounds "values")

/-- The body of the loop of `read_sheet` for one token. -/
def read_step (env : Env) (date_in : CStr → Except Err Int) (id : Option CStr) (sheet : CStr)
    (header : Bool) (sample : Jsonb) (st : read_state) : Tok → Except Err read_state
  | .WJB_BEGIN_ARRAY n =>
    let st := if ¬ st.is_row then { st with is_row := true } else { st with nElems := n }
    if st.setDesc = none ∧ st.nElems > 0 then
      match build_tupdesc env id sheet header sample st.nElems 0 st.types st.log with
      | .error e => .error e
      | .ok (desc, types, log) => .ok { st with setDesc := some desc, types := types, log := log }
    else .ok st
  | .WJB_ELEM v =>
    let st := if st.col = 0 then { st with values := List.replicate st.nElems none } else st
    let val := v.string_val
    let decoded : Except Err Datum :=
      if env.enable_infer_types then
        match list_nth_oid st.types st.col with
        | .error e => .error e
        | .ok typid => decode_cell date_in typid val
      else .ok (Datum.text val)
    match decoded with
    | .error e => .error e
    | .ok d =>
      if st.col < st.values.length then
        let st := { st with values := st.values.set st.col (some d), col := st.col + 1 }
        if st.col = st.nElems then
          match tuplestore_putvalues st.setDesc st.values with
          | .error e => .error e
          | .ok row => .ok { st with tupstore := st.tupstore ++ [row], col := 0 }
        else .ok st
      else .error (.out_of_bounds "values")
  | _ => .ok st

/-- The loop of `read_sheet` over the tokens of the fetched region. -/
def read_loop (env : Env) (date_in : CStr → Except Err Int) (id : Option CStr) (sheet : CStr)
    (header : Bool) (sample : Jsonb) : read_state → List Tok → Except Err read_state
  | st, [] => .ok st
  | st, tok :: more =>
    match read_step env date_in id sheet header sample st tok with
    | .error e => .error e
    | .ok st => read_loop env date_in id sheet header sample st more

/-- The identifier `read_sheet` takes from its first argument: the one inside a sharing URL,
or the argument itself when it has 44 characters. -/
def read_sheet_id (url : CStr) : Except Err CStr :=
  if validate_url url then extract_id url
  else if url.length = 44 then .ok url
  else .error (.INVALID_PARAMETER_VALUE "Invalid URL or sheet id")

/-- The function `read_sheet`. `url` and `sheet` are the first two arguments (`none` for a
null), `response` the parsed reply to the fetch of the region, `sample` the parsed reply to
the metadata request of `infer_types`. The result is the final state of the loop: the rows in
`tupstore`, the descriptor in `setDesc`, the transport calls in `log`. -/
def read_sheet (env : Env) (date_in : CStr → Except Err Int) (url sheet : Option CStr)
    (header : Bool) (response sample : Jsonb) : Except Err read_state :=
  match env.access_token with
  | none => .error (.INVALID_PARAMETER_VALUE "Access token is required")
  | some token =>
    if token.length = 0 then .error (.INVALID_PARAMETER_VALUE "Access token is required")
    else
      let headers := add_header [] "Authorization".toList ("Bearer ".toList ++ token)
      match url with
      | none => .error (.INVALID_PARAMETER_VALUE "URL or sheet id is required")
      | some url =>
        match read_sheet_id url with
        | .error e => .error e
        | .ok id =>
          match sheet with
          | none => .error (.INVALID_PARAMETER_VALUE "Sheet name is required")
          | some sheet =>
            let log : List HttpCall :=
              [{ method := .GET,
                 url := SHEET_URL (some id) (if header then sheet else sheet ++ "!A2:Z".toList),
                 data := [], params := [], headers := headers }]
            read_loop env date_in (some id) sheet header sample
              { nElems := 0, is_row := false, col := 0, values := [], types := [],
                setDesc := none, tupstore := [], log := log }
              response.tokens

/-! ## Vocabulary of the statements about the write session -/

/-- The header text the options of a session carry, if any. -/
def header_item : List OptionsArg → Option CStr
  | [OptionsArg.jsonb o] => o.header
  | _ => none

/-- The serialised rows of a session in the order they enter the buffer: the header when
there is one, then the rows of the stream. -/
def session_items (rest : List OptionsArg) (rows : List DataArg) : List CStr :=
  (header_item rest).toList ++ rows.map append_data

/-- An open buffer that holds the given serialised rows, each followed by a comma. -/
def open_buffer (items : List CStr) : CStr :=
  initialize_buffer ++ (items.map (fun x => x ++ [','])).flatten

/-- The JSON text of a batch: the serialised rows, separated by commas, inside the array of
the member `values`. -/
def payload_items (items : List CStr) : CStr :=
  "\x7b\"values\": [".toList ++ [','].intercalate items ++ "]\x7d".toList

/-- The JSON text of a batch of rows. -/
def payload_of (batch : List DataArg) : CStr := payload_items (batch.map append_data)

/-- The walk of a stream in batches of 2000: `n` full batches from the front, then the rest. -/
def batches_of {α : Type} : Nat → List α → List (List α)
  | 0, l => [l]
  | n + 1, l => l.take 2000 :: batches_of n (l.drop 2000)

/-- The batches of a session over the given rows: the full batches, then the batch of the
final flush. -/
def session_batches {α : Type} (l : List α) : List (List α) := batches_of (l.length / 2000) l

/-- The PUT that writes a batch at a start row. -/
def put_call (env : Env) (id : Option CStr) (sheet : CStr) (start : Int) (items : List CStr) :
    HttpCall :=
  { method := .PUT,
    url := SHEET_URL id (sheet ++ "!A".toList ++ fmt_d start),
    data := payload_items items,
    params := ["valueInputOption=USER_ENTERED".toList],
    headers := auth_headers env }

/-- The PUTs that lay batches one under the other: the first at row `start`, each next one
at the row after the rows of all the batches before it. -/
def tile (env : Env) (id : Option CStr) (sheet : CStr) : Nat → List (List CStr) → List HttpCall
  | _, [] => []
  | start, b :: bs => put_call env id sheet start b :: tile env id sheet (start + b.length) bs

/-- The same with the start row computed in 32-bit arithmetic. -/
def tile32 (env : Env) (id : Option CStr) (sheet : CStr) : Int → List (List CStr) → List HttpCall
  | _, [] => []
  | start, b :: bs =>
    put_call env id sheet (int32 start) b :: tile32 env id sheet (start + b.length) bs

/-- The batches the transition function forms from the pending rows and the rows to come. -/
def split_batches {α : Type} : List α → List α → List (List α)
  | pend, [] => [pend]
  | pend, d :: ds =>
    if pend.length + 1 ≥ 2000 then (pend ++ [d]) :: split_batches [] ds
    else split_batches (pend ++ [d]) ds

/-- The transition function folded over rows once the state exists. -/
def run_rows (env : Env) (acc : write_state × List HttpCall) (rows : List DataArg) :
    write_state × List HttpCall :=
  rows.foldl (fun a d => append_row env a.1 a.2 d) acc

/-! ## Sample inputs -/

/-- A configuration with a credential and inference off. -/
def demo_env : Env :=
  { access_token := some "token".toList, enable_infer_types := false,
    clock_title := "New Spreadsheet [2024-1-1 0:0:0]".toList }

/-- A creation response that carries the identifier `abc`. -/
def demo_response : Jsonb :=
  .object [("spreadsheetId".toList, .scalar (.jbvString "abc".toList))]

/-- The state of a session right after its creation request, no options given. -/
def demo_state : write_state :=
  { tcount := 0, count := 0, sheet_name := "Sheet1".toList,
    spreadsheet_id := some "abc".toList, buff := initialize_buffer }

/-- The log of a session right after its creation request, no options given. -/
def demo_log : List HttpCall :=
  [{ method := .POST, url := BASE_URL, data := create_body demo_env.clock_title, params := [],
     headers := auth_headers demo_env }]

/-- A one-field row. -/
def demo_row : DataArg := .scalar (some "x".toList)

/-! ## Reading a payload back as JSON

A reader of JSON texts of the shape the writer aims at: an object whose only member `values`
is an array of rows, every row an array of cells. A cell is a string or a bare literal (a
number, `true`, `false` or `null`); the reader gives the text entered into the cell: the
content of the string, or the literal as it stands, which is how the service takes a value
under `valueInputOption=USER_ENTERED`. Strings follow the JSON grammar: a double quote ends
the string, a backslash starts an escape, a control character is not allowed. -/

/-- The tokens of such a text. -/
inductive JTok where
  | lbrace
  | rbrace
  | lbrack
  | rbrack
  | comma
  | colon
  | str (s : CStr)
deriving DecidableEq, Repr

/-- The value of a hexadecimal digit. -/
def hex_val (c : Char) : Option Nat :=
  if '0' ≤ c ∧ c ≤ '9' then some (c.toNat - 48)
  else if 'a' ≤ c ∧ c ≤ 'f' then some (c.toNat - 87)
  else if 'A' ≤ c ∧ c ≤ 'F' then some (c.toNat - 55)
  else none

/-- The character a one-letter escape stands for. -/
def unescape (e : Char) : Option Char :=
  if e = '"' then some '"'
  else if e = '\\' then some '\\'
  else if e = '/' then some '/'
  else if e = 'b' then some '\x08'
  else if e = 'f' then some '\x0c'
  else if e = 'n' then some '\n'
  else if e = 'r' then some '\r'
  else if e = 't' then some '\t'
  else none

/-- A character that stands for itself inside a JSON string. -/
def json_plain (c : Char) : Bool := c ≠ '"' && c ≠ '\\' && decide (32 ≤ c.toNat)

/-- A character a bare literal is made of. -/
def lit_char (c : Char) : Bool :=
  decide (('0' ≤ c ∧ c ≤ '9') ∨ ('a' ≤ c ∧ c ≤ 'z') ∨ ('A' ≤ c ∧ c ≤ 'Z') ∨
    c = '-' ∨ c = '+' ∨ c = '.')

/-- Where the reader of a number stands. -/
inductive NState where
  | start
  | minus
  | zero
  | int
  | dot
  | frac
  | e
  | esign
  | exp
deriving DecidableEq, Repr

/-- One character of a number in the JSON grammar: an optional minus, `0` or digits that do
not start with `0`, an optional fraction, an optional exponent. -/
def num_step (st : NState) (c : Char) : Option NState :=
  let digit := decide ('0' ≤ c ∧ c ≤ '9')
  match st with
  | .start => if c = '-' then some .minus else if c = '0' then some .zero
              else if digit then some .int else none
  | .minus => if c = '0' then some .zero else if digit then some .int else none
  | .zero => if c = '.' then some .dot else if c = 'e' ∨ c = 'E' then some .e else none
  | .int => if digit then some .int else if c = '.' then some .dot
            else if c = 'e' ∨ c = 'E' then some .e else none
  | .dot => if digit then some .frac else none
  | .frac => if digit then some .frac else if c = 'e' ∨ c = 'E' then some .e else none
  | .e => if c = '-' ∨ c = '+' then some .esign else if digit then some .exp else none
  | .esign => if digit then some .exp else none
  | .exp => if digit then some .exp else none

/-- The text is the rest of a JSON number read so far up to state `st`. -/
def num_run : NState → CStr → Bool
  | st, [] => decide (st = .zero ∨ st = .int ∨ st = .frac ∨ st = .exp)
  | st, c :: t =>
    match num_step st c with
    | some st2 => num_run st2 t
    | none => false

/-- The text is a bare JSON literal: `true`, `false`, `null` or a number. -/
def json_literal (s : CStr) : Bool :=
  decide (s = "true".toList) || decide (s = "false".toList) || decide (s = "null".toList) ||
    num_run .start s

mutual
/-- Tokens of a text, read from between two tokens. A bare literal gives the token of its
text. -/
def lex_out : List Char → Option (List JTok)
  | [] => some []
  | c :: rest =>
    if c = ' ' ∨ c = '\t' ∨ c = '\n' ∨ c = '\r' then lex_out rest
    else if c = '\x7b' then (lex_out rest).map (fun t => JTok.lbrace :: t)
    else if c = '\x7d' then (lex_out rest).map (fun t => JTok.rbrace :: t)
    else if c = '[' then (lex_out rest).map (fun t => JTok.lbrack :: t)
    else if c = ']' then (lex_out rest).map (fun t => JTok.rbrack :: t)
    else if c = ',' then (lex_out rest).map (fun t => JTok.comma :: t)
    else if c = ':' then (lex_out rest).map (fun t => JTok.colon :: t)
    else if c = '"' then (lex_in rest).map (fun p => JTok.str p.1 :: p.2)
    else if lit_char c then
      match lex_lit rest with
      | some p => if json_literal (c :: p.1) then some (JTok.str (c :: p.1) :: p.2) else none
      | none => none
    else none
/-- Tokens of a text, read from inside a string: the rest of the string, then what follows. -/
def lex_in : List Char → Option (CStr × List JTok)
  | [] => none
  | c :: rest =>
    if c = '"' then (lex_out rest).map (fun t => ([], t))
    else if c = '\\' then
      match rest with
      | [] => none
      | e :: rest2 =>
        if e = 'u' then
          match rest2 with
          | h1 :: h2 :: h3 :: h4 :: rest3 =>
            match hex_val h1, hex_val h2, hex_val h3, hex_val h4 with
            | some a, some b, some c, some d =>
              (lex_in rest3).map
                (fun p => (Char.ofNat (4096 * a + 256 * b + 16 * c + d) :: p.1, p.2))
            | _, _, _, _ => none
          | _ => none
        else
          match unescape e with
          | some u => (lex_in rest2).map (fun p => (u :: p.1, p.2))
          | none => none
    else if c.toNat < 32 then none
    else (lex_in rest).map (fun p => (c :: p.1, p.2))
/-- Tokens of a text, read from inside a bare literal: the rest of the literal, then what
follows; a literal ends at white space, a comma or a closing bracket or brace. -/
def lex_lit : List Char → Option (CStr × List JTok)
  | [] => some ([], [])
  | c :: rest =>
    if lit_char c then (lex_lit rest).map (fun p => (c :: p.1, p.2))
    else if c = ' ' ∨ c = '\t' ∨ c = '\n' ∨ c = '\r' then (lex_out rest).map (fun t => ([], t))
    else if c = ',' then (lex_out rest).map (fun t => ([], JTok.comma :: t))
    else if c = ']' then (lex_out rest).map (fun t => ([], JTok.rbrack :: t))
    else if c = '\x7d' then (lex_out rest).map (fun t => ([], JTok.rbrace :: t))
    else none
end

/-- Where the reader stands in the text. -/
inductive PState where
  | start
  | key
  | colon
  | open_values
  | rows_first
  | rows_next
  | rows_comma
  | row_first
  | row_next
  | row_comma
  | close
  | done
deriving DecidableEq, Repr

/-- The reader over the tokens: `rows` are the rows read so far, `cur` the strings of the row
being read. -/
def parse_toks : PState → List (List CStr) → List CStr → List JTok → Option (List (List CStr))
  | .done, rows, _, [] => some rows
  | .start, rows, cur, .lbrace :: t => parse_toks .key rows cur t
  | .key, rows, cur, .str k :: t =>
    if k = "values".toList then parse_toks .colon rows cur t else none
  | .colon, rows, cur, .colon :: t => parse_toks .open_values rows cur t
  | .open_values, rows, cur, .lbrack :: t => parse_toks .rows_first rows cur t
  | .rows_first, rows, cur, .rbrack :: t => parse_toks .close rows cur t
  | .rows_first, rows, _, .lbrack :: t => parse_toks .row_first rows [] t
  | .rows_next, rows, cur, .rbrack :: t => parse_toks .close rows cur t
  | .rows_next, rows, cur, .comma :: t => parse_toks .rows_comma rows cur t
  | .rows_comma, rows, _, .lbrack :: t => parse_toks .row_first rows [] t
  | .row_first, rows, _, .rbrack :: t => parse_toks .rows_next (rows ++ [[]]) [] t
  | .row_first, rows, _, .str s :: t => parse_toks .row_next rows [s] t
  | .row_next, rows, cur, .rbrack :: t => parse_toks .rows_next (rows ++ [cur]) [] t
  | .row_next, rows, cur, .comma :: t => parse_toks .row_comma rows cur t
  | .row_comma, rows, cur, .str s :: t => parse_toks .row_next rows (cur ++ [s]) t
  | .close, rows, cur, .rbrace :: t => parse_toks .done rows cur t
  | _, _, _, _ => none

/-- The rows a payload holds when it is a well-formed JSON object whose member `values` is an
array of arrays of strings; `none` otherwise. -/
def parse_payload (text : CStr) : Option (List (List CStr)) :=
  match lex_out text with
  | some toks => parse_toks .start [] [] toks
  | none => none

/-- The texts of the fields of a row as the caller gave them, a null field standing for the
empty text. -/
def row_texts : DataArg → List CStr
  | .record fields => fields.map (fun f => f.getD [])
  | .scalar val => [val.getD []]

/-- The tokens of the fields of a row. -/
def texts_toks : List CStr → List JTok
  | [] => []
  | s :: t => JTok.str s :: t.flatMap (fun x => [JTok.comma, JTok.str x])

/-- The tokens of the rows of a batch. -/
def rows_toks : List (List CStr) → List JTok
  | [] => []
  | r :: t => JTok.lbrack :: (texts_toks r ++ [JTok.rbrack]) ++
      t.flatMap (fun x => JTok.comma :: JTok.lbrack :: (texts_toks x ++ [JTok.rbrack]))

/-- A text reads as the given tokens whatever follows it. -/
def Lexes (s : CStr) (ts : List JTok) : Prop :=
  ∀ rest, lex_out (s ++ rest) = (lex_out rest).map (fun t => ts ++ t)


/-! ## Vocabulary of the statements about the reader -/

/-- The value of a sampled cell, by the key the metadata reply files it under. -/
inductive CellValue where
  | number (n : CStr)
  | bool (b : Bool)
  | string (s : CStr)
deriving DecidableEq, Repr

/-- The value-kind key of a cell value. -/
def CellValue.key : CellValue → CStr
  | .number _ => "numberValue".toList
  | .bool _ => "boolValue".toList
  | .string _ => "stringValue".toList

/-- The scalar stored under the value-kind key. -/
def CellValue.scalar : CellValue → Scalar
  | .number n => .jbvNumeric n
  | .bool b => .jbvBool b
  | .string s => .jbvString s

/-- The tag of the value kind. -/
def CellValue.tag : CellValue → Oid
  | .number _ => .INT8OID
  | .bool _ => .BOOLOID
  | .string _ => .TEXTOID

/-- A cell of the sampled row: its value and, when a number format is applied, the type of
that format. -/
structure SampleCell where
  value : CellValue
  format : Option CStr
deriving DecidableEq, Repr

/-- The member `userEnteredValue` of a cell. -/
def SampleCell.value_member (c : SampleCell) : CStr × Jsonb :=
  ("userEnteredValue".toList, .object [(c.value.key, .scalar c.value.scalar)])

/-- The member `userEnteredFormat` of a cell, when it has a number format. -/
def SampleCell.format_member (c : SampleCell) : List (CStr × Jsonb) :=
  match c.format with
  | some t =>
    [("userEnteredFormat".toList,
      .object [("numberFormat".toList, .object [("type".toList, .scalar (.jbvString t))])])]
  | none => []

/-- The cell as the iterator visits it in a jsonb document: the value, then the format (the
key `userEnteredValue` is the shorter of the two). -/
def SampleCell.json (c : SampleCell) : Jsonb := .object (c.value_member :: c.format_member)

/-- The metadata reply whose first row of the first sheet holds the given cells. -/
def sample_reply (cells : List Jsonb) : Jsonb :=
  .object [("sheets".toList, .array [.object [("data".toList, .array [.object
    [("rowData".toList, .array [.object [("values".toList, .array cells)]])]])]])]

/-- A row of the fetched region: an array of string cells. -/
def region_row (cells : List CStr) : Jsonb :=
  .array (cells.map (fun s => Jsonb.scalar (.jbvString s)))

/-- A scalar member of a reply. -/
def scalar_member (m : CStr × Scalar) : CStr × Jsonb := (m.1, .scalar m.2)

/-- A reply to the fetch of a region: an object whose member `values` holds the rows, among
scalar members such as `range` and `majorDimension`. -/
def region_reply (before after : List (CStr × Scalar)) (rows : List (List CStr)) : Jsonb :=
  .object (before.map scalar_member ++
    ("values".toList, Jsonb.array (rows.map region_row)) :: after.map scalar_member)

/-- An identifier of 44 characters. -/
def demo_id : CStr := List.replicate 44 'x'

/-- The configuration of `demo_env` with inference on. -/
def demo_env_infer : Env := { demo_env with enable_infer_types := true }

/-- A date input that accepts nothing; the sample inputs hold no date. -/
def no_date_in : CStr → Except Err Int := fun _ => .error .INVALID_TEXT_REPRESENTATION


/-! ## The opening of `read_sheet` with its transport calls -/

/-- The opening of `read_sheet`, up to and including the fetch of the region: the credential
check, the validation of the two arguments, then the call of `http_get`. The result pairs the
transport calls made so far with the outcome: the error raised, or the identifier and the
sheet name the loop goes on with. -/
def read_sheet_fetch (env : Env) (url sheet : Option CStr) (header : Bool) :
    List HttpCall × Except Err (CStr × CStr) :=
  match env.access_token with
  | none => ([], .error (.INVALID_PARAMETER_VALUE "Access token is required"))
  | some token =>
    if token.length = 0 then ([], .error (.INVALID_PARAMETER_VALUE "Access token is required"))
    else
      let headers := add_header [] "Authorization".toList ("Bearer ".toList ++ token)
      match url with
      | none => ([], .error (.INVALID_PARAMETER_VALUE "URL or sheet id is required"))
      | some url =>
        match read_sheet_id url with
        | .error e => ([], .error e)
        | .ok id =>
          match sheet with
          | none => ([], .error (.INVALID_PARAMETER_VALUE "Sheet name is required"))
          | some sheet =>
            ([{ method := .GET,
                url := SHEET_URL (some id) (if header then sheet else sheet ++ "!A2:Z".toList),
                data := [], params := [], headers := headers }],
             .ok (id, sheet))

/-- The state `read_sheet` enters its loop with, the log holding the calls made so far. -/
def read_state_init (log : List HttpCall) : read_state :=
  { nElems := 0, is_row := false, col := 0, values := [], types := [], setDesc := none,
    tupstore := [], log := log }

/-- The address of the service that marks a sharing URL. -/
def sharing_address : CStr := "https://docs.google.com/spreadsheets/".toList

/-- The string `u` holds the text `needle` somewhere. -/
def holds_text (u needle : CStr) : Prop := ∃ pre post, u = pre ++ needle ++ post

/-- In the string `u` the first occurrence of the text `needle` stands right after `pre` and
is followed by `post`: no occurrence starts earlier. -/
def first_at (u needle pre post : CStr) : Prop :=
  u = pre ++ needle ++ post ∧ ∀ p q, u = p ++ needle ++ q → pre.length ≤ p.length

/-- The identifier of a sharing URL by its shape: `id` is what follows the first `/d/` of the
string up to the next `/` or the end of the string, and it has exactly 44 characters. -/
def url_id (u id : CStr) : Prop :=
  ∃ pre post, first_at u "/d/".toList pre (id ++ post) ∧ id.length = 44 ∧ '/' ∉ id ∧
    (post = [] ∨ ∃ t, post = '/' :: t)

/-- The arguments `read_sheet` is to reject once the credential is there, by their shape: a
null identifier, a null sheet name, an identifier that holds the
address of the service but whose first `/d/` is missing or is not followed by exactly 44
characters up to the next `/` or the end, or one that does not hold the address and has not
exactly 44 characters. -/
def rejected_args (url sheet : Option CStr) : Prop :=
  url = none ∨ sheet = none ∨
  ∃ u, url = some u ∧
    ((holds_text u sharing_address ∧ ¬ ∃ id, url_id u id) ∨
     (¬ holds_text u sharing_address ∧ u.length ≠ 44))

/-! ## More sample inputs -/

/-- The configuration of `demo_env` without a credential. -/
def demo_env_no_token : Env := { demo_env with access_token := none }

/-- The reply of the service to a creation request it refuses: no identifier in it. -/
def demo_refusal : Jsonb :=
  .object [("error".toList, .object
    [("code".toList, .scalar (.jbvNumeric "401".toList)),
     ("status".toList, .scalar (.jbvString "UNAUTHENTICATED".toList))])]

/-- Options that name a spreadsheet and carry a header of one label. -/
def demo_options : Options :=
  { spreadsheet_id := some demo_id, sheet_name := none, spreadsheet_name := none,
    header := some "[\"label\"]".toList }

/-- A string of 44 characters that holds the address of the service. -/
def demo_short_url : CStr := "https://docs.google.com/spreadsheets/d/abcde".toList


/-! ## Vocabulary of the statements about the rows a payload holds -/

/-- No field text of the rows holds a double quote, a backslash or a control character. -/
def plain_rows (rows : List DataArg) : Prop :=
  ∀ d ∈ rows, ∀ f ∈ row_texts d, ∀ c ∈ f, json_plain c = true

/-- The header text of the options, when there is one, is a JSON array that reads as the one
row `labels`: what `JsonbToCString` renders for a header that is an array of strings,
numbers, truth values or nulls, `labels` being the texts of its cells. -/
def header_reads (rest : List OptionsArg) (labels : List CStr) : Prop :=
  ∀ h, header_item rest = some h → Lexes h (rows_toks [labels])

/-- The rows of a session as the caller gave them: the labels of the header when there is
one, then the field texts of every row of the stream. -/
def session_rows (rest : List OptionsArg) (labels : List CStr) (rows : List DataArg) :
    List (List CStr) :=
  (header_item rest).toList.map (fun _ => labels) ++ rows.map row_texts

/-- Every serialised row of a session beside the row it stands for. -/
def session_pairs (rest : List OptionsArg) (labels : List CStr) (rows : List DataArg) :
    List (CStr × List CStr) :=
  (header_item rest).toList.map (fun h => (h, labels)) ++
    rows.map (fun d => (append_data d, row_texts d))

/-- A row of one text field that holds double quotes, brackets and a comma. -/
def demo_quote_row : DataArg := .scalar (some "x\"],[\"y".toList)

/-! ## Arithmetic on `int` -/

theorem int32_of_fits (x : Int) (h1 : -2147483648 ≤ x) (h2 : x < 2147483648) : int32 x = x := by
  unfold int32; omega

theorem int32_add_left (a b : Int) : int32 (int32 a + b) = int32 (a + b) := by
  unfold int32; omega

theorem int32_start (t c : Int) : int32 (int32 (int32 t - c) + 1) = int32 (t - c + 1) := by
  unfold int32; omega

/-! ## The buffer -/

theorem remove_trailing_comma_comma (l : CStr) : remove_trailing_comma (l ++ [',']) = l := by
  simp [remove_trailing_comma]

theorem remove_trailing_comma_other (l : CStr) (c : Char) (h : c ≠ ',') :
    remove_trailing_comma (l ++ [c]) = l ++ [c] := by
  simp [remove_trailing_comma, h]

theorem append_data_ends (d : DataArg) : ∃ b, append_data d = b ++ [']'] := by
  cases d with
  | record fields => exact ⟨'[' :: append_fields fields, by simp [append_data]⟩
  | scalar val => exact ⟨'[' :: '"' :: field_val val ++ ['"'], by simp [append_data]⟩

theorem open_buffer_nil : open_buffer [] = initialize_buffer := by
  simp [open_buffer]

theorem open_buffer_concat (p : List CStr) (x : CStr) :
    open_buffer (p ++ [x]) = open_buffer p ++ x ++ [','] := by
  simp [open_buffer, List.append_assoc]

theorem intercalate_cons_cons (a b : CStr) (t : List CStr) :
    [','].intercalate (a :: b :: t) = a ++ ',' :: [','].intercalate (b :: t) := by
  simp [List.intercalate, List.intersperse]

theorem intercalate_concat (p : List CStr) (x : CStr) :
    [','].intercalate (p ++ [x]) = (p.map (fun y => y ++ [','])).flatten ++ x := by
  induction p with
  | nil => simp [List.intercalate]
  | cons a t ih =>
    cases t with
    | nil => simp [List.intercalate]
    | cons b t =>
      rw [List.cons_append, List.cons_append, intercalate_cons_cons, ← List.cons_append, ih]
      simp

theorem payload_items_concat (p : List CStr) (x : CStr) :
    payload_items (p ++ [x]) = open_buffer p ++ x ++ [']', '\x7d'] := by
  simp only [payload_items, intercalate_concat, open_buffer, initialize_buffer]
  simp

theorem close_buffer_row (p : List CStr) (d : DataArg) :
    close_buffer (open_buffer p ++ append_data d) = payload_items (p ++ [append_data d]) := by
  obtain ⟨b, hb⟩ := append_data_ends d
  rw [payload_items_concat, close_buffer, hb, ← List.append_assoc,
    remove_trailing_comma_other _ _ (by decide)]

theorem close_buffer_open (p : List CStr) : close_buffer (open_buffer p) = payload_items p := by
  rcases List.eq_nil_or_concat p with h | ⟨q, x, h⟩
  · subst h; decide
  · subst h
    rw [List.concat_eq_append, payload_items_concat, open_buffer_concat, close_buffer, remove_trailing_comma_comma]

/-! ## One transition on a state that satisfies the invariant -/

theorem append_row_keep (env : Env) (st : write_state) (log : List HttpCall) (d : DataArg)
    (pend : List CStr) (s : Int) (hb : st.buff = open_buffer pend) (hc : st.count = pend.length)
    (ht : st.tcount = int32 (s - 1 + pend.length)) (hlt : pend.length + 1 < 2000) :
    append_row env st log d =
      ({ st with buff := open_buffer (pend ++ [append_data d]),
                 tcount := int32 (s - 1 + (pend ++ [append_data d]).length),
                 count := ((pend ++ [append_data d]).length : Nat) }, log) := by
  obtain ⟨t, c, sn, id, b⟩ := st
  simp only at hb hc ht
  subst hb hc ht
  have h1 : int32 ((pend.length : Int) + 1) = (pend.length : Int) + 1 :=
    int32_of_fits _ (by omega) (by omega)
  have h2 : ¬ ((pend.length : Int) + 1 ≥ 2000) := by omega
  simp only [append_row, h1, h2, if_false, int32_add_left, open_buffer_concat,
    List.length_append, List.length_singleton, Nat.cast_add, Nat.cast_one, add_assoc]

theorem append_row_flush (env : Env) (st : write_state) (log : List HttpCall) (d : DataArg)
    (pend : List CStr) (s : Int) (hb : st.buff = open_buffer pend) (hc : st.count = pend.length)
    (ht : st.tcount = int32 (s - 1 + pend.length)) (hlt : pend.length < 2000)
    (hge : pend.length + 1 ≥ 2000) :
    append_row env st log d =
      ({ st with buff := open_buffer [],
                 tcount := int32 (s + ((pend ++ [append_data d]).length : Nat) - 1 + (0 : Nat)),
                 count := (0 : Nat) },
       log ++ [put_call env st.spreadsheet_id st.sheet_name (int32 s)
                 (pend ++ [append_data d])]) := by
  obtain ⟨t, c, sn, id, b⟩ := st
  simp only at hb hc ht
  subst hb hc ht
  have h1 : int32 ((pend.length : Int) + 1) = (pend.length : Int) + 1 :=
    int32_of_fits _ (by omega) (by omega)
  have h2 : ((pend.length : Int) + 1 ≥ 2000) := by omega
  have h3 : int32 (int32 (int32 (s - 1 + ↑pend.length + 1) - (↑pend.length + 1)) + 1)
      = int32 s := by
    unfold int32; omega
  have h4 : int32 (s - 1 + ↑pend.length + 1) = int32 (s + (↑pend.length + 1) - 1 + 0) := by
    unfold int32; omega
  have h5 : int32 (int32 (s + (↑pend.length + 1) - 1 + 0) - (↑pend.length + 1) + 1)
      = int32 s := by
    unfold int32; omega
  simp only [append_row, h1, h2, if_true, int32_add_left, write_to_gsheet, put_call,
    close_buffer_row, open_buffer_nil, h3, h4, h5,
    List.length_append, List.length_singleton, Nat.cast_add, Nat.cast_one, Nat.cast_zero]

theorem run_rows_cons (env : Env) (acc : write_state × List HttpCall) (d : DataArg)
    (ds : List DataArg) :
    run_rows env acc (d :: ds) = run_rows env (append_row env acc.1 acc.2 d) ds := rfl

theorem run_final (env : Env) : ∀ (rows : List DataArg) (st : write_state)
    (log : List HttpCall) (pend : List CStr) (s : Int),
    st.buff = open_buffer pend → st.count = pend.length → pend.length < 2000 →
    st.tcount = int32 (s - 1 + pend.length) →
    (write_sheet_final env (run_rows env (st, log) rows).1 (run_rows env (st, log) rows).2).1
      = log ++ tile32 env st.spreadsheet_id st.sheet_name s
                 (split_batches pend (rows.map append_data)) := by
  intro rows
  induction rows with
  | nil =>
    intro st log pend s hb hc _ ht
    have h3 : int32 (int32 (int32 (s - 1 + ↑pend.length) - ↑pend.length) + 1) = int32 s := by
      unfold int32; omega
    simp [run_rows, write_sheet_final, write_to_gsheet, split_batches, tile32, put_call, hb, hc,
      ht, close_buffer_open, h3]
  | cons d ds ih =>
    intro st log pend s hb hc hlt ht
    rw [run_rows_cons]
    by_cases hge : pend.length + 1 ≥ 2000
    · rw [append_row_flush env st log d pend s hb hc ht hlt hge]
      rw [ih _ _ [] (s + ((pend ++ [append_data d]).length : Nat)) rfl rfl (by simp) rfl]
      simp [split_batches, hge, tile32]
    · rw [append_row_keep env st log d pend s hb hc ht (by omega)]
      rw [ih _ _ (pend ++ [append_data d]) s rfl rfl (by simp; omega) rfl]
      simp [split_batches, hge]

/-! ## The session as a fold -/

theorem write_rows_some (env : Env) (rest : List OptionsArg) (response : Jsonb) :
    ∀ (rows : List DataArg) (st : write_state) (log : List HttpCall),
    write_rows env rest response (some st, log) rows =
      .ok (some (run_rows env (st, log) rows).1, (run_rows env (st, log) rows).2) := by
  intro rows
  induction rows with
  | nil => intro st log; rfl
  | cons d ds ih =>
    intro st log
    simp only [write_rows, write_sheet_transition, run_rows_cons]
    exact ih _ _

theorem write_session_run (env : Env) (rest : List OptionsArg) (response : Jsonb)
    (rows : List DataArg) (st0 : write_state) (log0 : List HttpCall) (hne : rows ≠ [])
    (hinit : init_state env rest response [] = .ok (st0, log0)) :
    write_session env rest response rows =
      .ok (write_sheet_final env (run_rows env (st0, log0) rows).1
             (run_rows env (st0, log0) rows).2) := by
  cases rows with
  | nil => exact absurd rfl hne
  | cons d ds =>
    simp only [write_session, write_rows, write_sheet_transition, hinit, write_rows_some,
      run_rows_cons]

theorem init_state_inv (env : Env) (rest : List OptionsArg) (response : Jsonb)
    (st0 : write_state) (log0 : List HttpCall)
    (hinit : init_state env rest response [] = .ok (st0, log0)) :
    st0.buff = open_buffer (header_item rest).toList ∧
    st0.count = ((header_item rest).toList.length : Nat) ∧
    st0.tcount = ((header_item rest).toList.length : Nat) ∧
    puts log0 = [] := by
  have hw : int32 1 = 1 := by decide
  rcases rest with _ | ⟨a, _ | ⟨b, t⟩⟩
  · simp only [init_state, create_new_sheet] at hinit
    cases hf : find_spreadsheetId response.tokens <;> simp [hf] at hinit <;>
      obtain ⟨h1, h2⟩ := hinit <;> subst h1 h2 <;> simp [header_item, open_buffer, puts]
  · cases a with
    | other => simp [init_state] at hinit
    | jsonb o =>
      obtain ⟨sid, sn, spn, hdr⟩ := o
      cases sid with
      | none =>
        cases hdr <;> cases hf : find_spreadsheetId response.tokens <;>
          simp [init_state, create_new_sheet, write_header, hf] at hinit <;>
          obtain ⟨h1, h2⟩ := hinit <;> subst h1 h2 <;>
          simp [header_item, open_buffer, puts, hw]
      | some id =>
        by_cases hl : id.length = 44 <;> cases hdr <;>
          simp [init_state, write_header, hl] at hinit <;>
          obtain ⟨h1, h2⟩ := hinit <;> subst h1 h2 <;>
          simp [header_item, open_buffer, puts, hw]
  · have h2 : 2 < 1 + (t.length + 1 + 1) := by omega
    simp [init_state, h2] at hinit

/-! ## Batches -/

theorem batches_of_flatten {α : Type} : ∀ (n : Nat) (l : List α), (batches_of n l).flatten = l := by
  intro n
  induction n with
  | zero => intro l; simp [batches_of]
  | succ n ih => intro l; simp [batches_of, ih]

theorem batches_of_length {α : Type} : ∀ (n : Nat) (l : List α), (batches_of n l).length = n + 1 := by
  intro n
  induction n with
  | zero => intro l; simp [batches_of]
  | succ n ih => intro l; simp [batches_of, ih]

theorem batches_of_sum {α : Type} (n : Nat) (l : List α) :
    ((batches_of n l).map List.length).sum = l.length := by
  have h := congrArg List.length (batches_of_flatten n l)
  rw [List.length_flatten] at h
  exact h

theorem batches_of_map {α β : Type} (f : α → β) : ∀ (n : Nat) (l : List α),
    batches_of n (l.map f) = (batches_of n l).map (List.map f) := by
  intro n
  induction n with
  | zero => intro l; simp [batches_of]
  | succ n ih => intro l; simp [batches_of, ← ih, List.map_take, List.map_drop]

theorem split_batches_eq {α : Type} : ∀ (rows pend : List α), pend.length < 2000 →
    split_batches pend rows = batches_of ((pend.length + rows.length) / 2000) (pend ++ rows) := by
  intro rows
  induction rows with
  | nil =>
    intro pend h
    have h0 : (pend.length + ([] : List α).length) / 2000 = 0 := by
      simp only [List.length_nil]; omega
    rw [h0]
    simp [split_batches, batches_of]
  | cons d ds ih =>
    intro pend h
    by_cases hge : pend.length + 1 ≥ 2000
    · have hlen : pend.length = 1999 := by omega
      have hq : (pend.length + (d :: ds).length) / 2000 = ds.length / 2000 + 1 := by
        simp only [List.length_cons]; omega
      have ht : (pend ++ d :: ds).take 2000 = pend ++ [d] := by
        rw [List.take_append_eq_append_take]; simp [hlen]
      have hd : (pend ++ d :: ds).drop 2000 = ds := by
        rw [List.drop_append_eq_append_drop]; simp [hlen]
      simp only [split_batches, hge, if_true, hq, batches_of, ht, hd]
      rw [ih [] (by simp)]
      simp
    · have h1 : (pend ++ [d]).length < 2000 := by simp; omega
      simp only [split_batches, hge, if_false]
      rw [ih (pend ++ [d]) h1]
      simp [List.length_append, add_assoc, add_comm 1]

/-! ## Laying the batches out -/

theorem puts_tile (env : Env) (id : Option CStr) (sheet : CStr) :
    ∀ (bs : List (List CStr)) (start : Nat),
    puts (tile env id sheet start bs) = tile env id sheet start bs := by
  intro bs
  induction bs with
  | nil => intro start; rfl
  | cons b bs ih =>
    intro start
    have := ih (start + b.length)
    simp only [puts] at this ⊢
    simp [tile, put_call, this]

theorem puts_tile32 (env : Env) (id : Option CStr) (sheet : CStr) :
    ∀ (bs : List (List CStr)) (start : Int),
    puts (tile32 env id sheet start bs) = tile32 env id sheet start bs := by
  intro bs
  induction bs with
  | nil => intro start; rfl
  | cons b bs ih =>
    intro start
    have := ih (start + b.length)
    simp only [puts] at this ⊢
    simp [tile32, put_call, this]

theorem tile32_data (env : Env) (id : Option CStr) (sheet : CStr) :
    ∀ (bs : List (List CStr)) (start : Int),
    (tile32 env id sheet start bs).map (fun c => c.data) = bs.map payload_items := by
  intro bs
  induction bs with
  | nil => intro start; rfl
  | cons b bs ih => intro start; simp [tile32, put_call, ih]

theorem puts_append (l1 l2 : List HttpCall) : puts (l1 ++ l2) = puts l1 ++ puts l2 := by
  simp [puts]

/-! ## The calls of a whole session -/

theorem session_calls (env : Env) (rest : List OptionsArg) (response : Jsonb)
    (rows : List DataArg) (st0 : write_state) (log0 : List HttpCall) (hne : rows ≠ [])
    (hinit : init_state env rest response [] = .ok (st0, log0)) :
    ∃ notice, write_session env rest response rows =
      .ok (log0 ++ tile32 env st0.spreadsheet_id st0.sheet_name 1
             (session_batches (session_items rest rows)), notice) := by
  obtain ⟨hb, hc, ht, _⟩ := init_state_inv env rest response st0 log0 hinit
  have hlen : (header_item rest).toList.length < 2000 := by
    cases header_item rest <;> simp
  have hrun := run_final env rows st0 log0 (header_item rest).toList 1 hb hc hlen
    (by rw [ht]; simp; exact (int32_of_fits _ (by omega) (by omega)).symm)
  rw [split_batches_eq _ _ hlen] at hrun
  refine ⟨(write_sheet_final env (run_rows env (st0, log0) rows).1
    (run_rows env (st0, log0) rows).2).2, ?_⟩
  rw [write_session_run env rest response rows st0 log0 hne hinit]
  simp only [session_batches, session_items, List.length_append]
  rw [← hrun]

theorem demo_init : init_state demo_env [] demo_response [] = .ok (demo_state, demo_log) := by
  rfl

theorem replicate_ne_nil {α : Type} (n : Nat) (x : α) (h : 0 < n) : List.replicate n x ≠ [] := by
  intro hn
  have := congrArg List.length hn
  simp only [List.length_replicate, List.length_nil] at this
  omega

/-! ## The claims about the write session -/

theorem session_payloads (env : Env) (rest : List OptionsArg) (response : Jsonb)
    (rows : List DataArg) (st0 : write_state) (log0 : List HttpCall) (hne : rows ≠ [])
    (hhdr : header_item rest = none)
    (hinit : init_state env rest response [] = .ok (st0, log0)) :
    ∃ out, write_session env rest response rows = .ok out ∧
      (puts out.1).map (fun c => c.data) = (session_batches rows).map payload_of := by
  obtain ⟨notice, h⟩ := session_calls env rest response rows st0 log0 hne hinit
  obtain ⟨_, _, _, hp⟩ := init_state_inv env rest response st0 log0 hinit
  refine ⟨_, h, ?_⟩
  have hi : session_items rest rows = rows.map append_data := by
    simp [session_items, hhdr]
  simp only [puts_append, hp, List.nil_append, puts_tile32, tile32_data, hi, session_batches,
    List.length_map, batches_of_map, List.map_map]
  rfl

theorem tile32_length (env : Env) (id : Option CStr) (sheet : CStr) :
    ∀ (bs : List (List CStr)) (start : Int), (tile32 env id sheet start bs).length = bs.length := by
  intro bs
  induction bs with
  | nil => intro start; rfl
  | cons b bs ih => intro start; simp [tile32, ih]

theorem session_put_count (env : Env) (rest : List OptionsArg) (response : Jsonb)
    (rows : List DataArg) (st0 : write_state) (log0 : List HttpCall) (hne : rows ≠ [])
    (hinit : init_state env rest response [] = .ok (st0, log0)) :
    ∃ out, write_session env rest response rows = .ok out ∧
      (puts out.1).length = (session_items rest rows).length / 2000 + 1 := by
  obtain ⟨notice, h⟩ := session_calls env rest response rows st0 log0 hne hinit
  obtain ⟨_, _, _, hp⟩ := init_state_inv env rest response st0 log0 hinit
  refine ⟨_, h, ?_⟩
  simp only [puts_append, hp, List.nil_append, puts_tile32, tile32_length, session_batches,
    batches_of_length]

/-- C3, as the source has it: a stream of N >= 1 rows written without a header makes exactly
floor(N/2000) + 1 PUT calls, the final function flushing whatever the buffer holds; that is
ceil(N/2000) exactly when 2000 does not divide N. -/
theorem write_session_put_count (env : Env) (rest : List OptionsArg) (response : Jsonb)
    (rows : List DataArg) (st0 : write_state) (log0 : List HttpCall) (hne : rows ≠ [])
    (hhdr : header_item rest = none)
    (hinit : init_state env rest response [] = .ok (st0, log0)) :
    ∃ out, write_session env rest response rows = .ok out ∧
      (puts out.1).length = rows.length / 2000 + 1 ∧
      ((puts out.1).length = (rows.length + 1999) / 2000 ↔ ¬ 2000 ∣ rows.length) := by
  obtain ⟨out, h, hc⟩ := session_put_count env rest response rows st0 log0 hne hinit
  have hi : (session_items rest rows).length = rows.length := by
    simp [session_items, hhdr]
  rw [hi] at hc
  refine ⟨out, h, hc, ?_⟩
  rw [hc]
  omega

/-- Witness of the amended C3 on a stream of 4500 rows: three PUT calls. -/
theorem write_session_put_count_witness :
    ∃ out, write_session demo_env [] demo_response (List.replicate 4500 demo_row) = .ok out ∧
      (puts out.1).length = 3 := by
  obtain ⟨out, h, hc, _⟩ := write_session_put_count demo_env [] demo_response
    (List.replicate 4500 demo_row) demo_state demo_log (replicate_ne_nil _ _ (by omega)) rfl
    demo_init
  rw [List.length_replicate] at hc
  exact ⟨out, h, hc⟩

/-- C3 fails as stated at N = 2000: the transition of the 2000th row flushes the full batch
and the final function makes a second call, while ceil(2000/2000) = 1. -/
theorem write_session_put_count_at_2000 :
    ∃ out, write_session demo_env [] demo_response (List.replicate 2000 demo_row) = .ok out ∧
      (puts out.1).length = 2 ∧
      (puts out.1).length ≠ ((List.replicate 2000 demo_row).length + 1999) / 2000 := by
  obtain ⟨out, h, hc⟩ := session_put_count demo_env [] demo_response
    (List.replicate 2000 demo_row) demo_state demo_log (replicate_ne_nil _ _ (by omega))
    demo_init
  have hi : (session_items [] (List.replicate 2000 demo_row)).length = 2000 := by
    simp only [session_items, header_item, Option.toList, List.nil_append, List.length_map,
      List.length_replicate]
  rw [hi] at hc
  refine ⟨out, h, hc, ?_⟩
  rw [hc, List.length_replicate]
  decide

/-! ## Reading back what the writer serialised -/

theorem lex_in_quote (rest : CStr) : lex_in ('"' :: rest) = (lex_out rest).map (fun t => ([], t)) := by
  rw [lex_in.eq_def]; simp

theorem lex_in_cons (c : Char) (rest : CStr) (h1 : c ≠ '"') (h2 : c ≠ '\\')
    (h3 : ¬ c.toNat < 32) :
    lex_in (c :: rest) = (lex_in rest).map (fun p => (c :: p.1, p.2)) := by
  rw [lex_in.eq_def]; simp [h1, h2, h3]

theorem lex_in_plain : ∀ (txt : CStr) (rest : CStr), (∀ c ∈ txt, json_plain c = true) →
    lex_in (txt ++ '"' :: rest) = (lex_out rest).map (fun t => (txt, t)) := by
  intro txt
  induction txt with
  | nil => intro rest _; exact lex_in_quote rest
  | cons c t ih =>
    intro rest h
    have hc := h c (List.mem_cons_self _ _)
    simp only [json_plain, Bool.and_eq_true, decide_eq_true_eq, bne_iff_ne, ne_eq] at hc
    obtain ⟨⟨h1, h2⟩, h3⟩ := hc
    have h4 : ¬ c.toNat < 32 := by omega
    rw [List.cons_append, lex_in_cons c _ h1 h2 h4]
    rw [ih rest (fun x hx => h x (List.mem_cons_of_mem _ hx))]
    cases lex_out rest <;> simp

theorem Lexes.nil : Lexes [] [] := by
  intro rest; cases h : lex_out rest <;> simp [h]

theorem Lexes.append {s1 s2 : CStr} {t1 t2 : List JTok} (h1 : Lexes s1 t1) (h2 : Lexes s2 t2) :
    Lexes (s1 ++ s2) (t1 ++ t2) := by
  intro rest
  rw [List.append_assoc, h1, h2]
  cases lex_out rest <;> simp

theorem Lexes.str (txt : CStr) (h : ∀ c ∈ txt, json_plain c = true) :
    Lexes ('"' :: txt ++ ['"']) [JTok.str txt] := by
  intro rest
  have : ('"' :: txt ++ ['"']) ++ rest = '"' :: (txt ++ '"' :: rest) := by simp
  rw [this, lex_out]
  simp only [Char.reduceEq, or_self, if_false, if_true]
  rw [lex_in_plain txt rest h]
  cases lex_out rest <;> simp

theorem Lexes.lbrack : Lexes ['['] [JTok.lbrack] := by
  intro rest; simp [lex_out]

theorem Lexes.rbrack : Lexes [']'] [JTok.rbrack] := by
  intro rest; simp [lex_out]

theorem Lexes.comma : Lexes [','] [JTok.comma] := by
  intro rest; simp [lex_out]

theorem Lexes.rbrace : Lexes ['\x7d'] [JTok.rbrace] := by
  intro rest; simp [lex_out]

theorem Lexes.opening :
    Lexes initialize_buffer [JTok.lbrace, JTok.str "values".toList, JTok.colon, JTok.lbrack] := by
  intro rest
  have h := ((Lexes.str "values".toList (by decide)).append
    (@Lexes.append [':', ' '] ['['] [JTok.colon] [JTok.lbrack] (fun r => by simp [lex_out])
      Lexes.lbrack)) rest
  have h0 : initialize_buffer ++ rest =
      '\x7b' :: (('"' :: "values".toList ++ ['"']) ++ ([':', ' '] ++ ['['])) ++ rest := by
    rfl
  rw [h0, List.cons_append, lex_out]
  simp only [Char.reduceEq, or_self, if_false, if_true]
  rw [h]
  cases lex_out rest <;> simp

/-- A header of a number, a truth value and a string reads as one row of three cells. -/
theorem lexes_literal_header :
    Lexes "[1, true, \"a\"]".toList (rows_toks [["1".toList, "true".toList, "a".toList]]) := by
  intro rest
  have h1 : ∀ r, lex_lit (',' :: r) = (lex_out r).map (fun t => ([], JTok.comma :: t)) := by
    intro r
    rw [lex_lit.eq_def]
    simp [lit_char]
  have h2 : ∀ r, lex_out ('1' :: ',' :: r) =
      (lex_out r).map (fun t => JTok.str "1".toList :: JTok.comma :: t) := by
    intro r
    rw [lex_out.eq_def]
    simp only [h1]
    cases lex_out r <;> simp [lit_char, json_literal, num_run, num_step]
  have h3 : ∀ r, lex_out ('t' :: 'r' :: 'u' :: 'e' :: ',' :: r) =
      (lex_out r).map (fun t => JTok.str "true".toList :: JTok.comma :: t) := by
    intro r
    rw [lex_out.eq_def]
    simp only [lex_lit, h1]
    cases lex_out r <;> simp [lit_char, json_literal, num_run, num_step]
  have h4 := (Lexes.str "a".toList (by decide)).append Lexes.rbrack rest
  have e : "[1, true, \"a\"]".toList ++ rest =
      '[' :: '1' :: ',' :: ' ' :: 't' :: 'r' :: 'u' :: 'e' :: ',' :: ' ' ::
        (('"' :: "a".toList ++ ['"']) ++ [']'] ++ rest) := rfl
  have hb : ∀ r, lex_out ('[' :: r) = (lex_out r).map (fun t => JTok.lbrack :: t) := by
    intro r
    rw [lex_out.eq_def]
    simp
  have hs : ∀ r, lex_out (' ' :: r) = lex_out r := by
    intro r
    rw [lex_out.eq_def]
    simp
  rw [e, hb, h2, hs, h3, hs, h4]
  cases lex_out rest <;> simp [rows_toks, texts_toks]

theorem Lexes.fields : ∀ (fs : List (Option CStr)),
    (∀ f ∈ fs, ∀ c ∈ field_val f, json_plain c = true) →
    Lexes (append_fields fs) (texts_toks (fs.map field_val)) := by
  intro fs
  induction fs with
  | nil => intro _; exact Lexes.nil
  | cons f t ih =>
    intro h
    have hf := Lexes.str (field_val f) (h f (List.mem_cons_self _ _))
    have ht := ih (fun g hg => h g (List.mem_cons_of_mem _ hg))
    cases t with
    | nil => simpa [append_fields, texts_toks] using hf
    | cons g t =>
      have h3 := (hf.append Lexes.comma).append ht
      simpa [append_fields, texts_toks] using h3

theorem field_val_eq (f : Option CStr) : field_val f = f.getD [] := by
  cases f <;> rfl

theorem Lexes.row_of (hfv : ∀ f, field_val f = f.getD []) (d : DataArg)
    (h : ∀ f ∈ row_texts d, ∀ c ∈ f, json_plain c = true) :
    Lexes (append_data d) (JTok.lbrack :: texts_toks (row_texts d) ++ [JTok.rbrack]) := by
  cases d with
  | record fields =>
    have hm : fields.map field_val = fields.map (fun f => f.getD []) :=
      List.map_congr_left (fun f _ => hfv f)
    have hf := Lexes.fields fields (fun f hf => by
      rw [hfv]
      exact h (f.getD []) (List.mem_map_of_mem (fun f => f.getD []) hf))
    rw [hm] at hf
    have := (Lexes.lbrack.append hf).append Lexes.rbrack
    simpa [append_data, row_texts] using this
  | scalar val =>
    have hf := Lexes.str (field_val val) (by
      rw [hfv]; exact h (val.getD []) (by simp [row_texts]))
    rw [hfv] at hf
    have := (Lexes.lbrack.append hf).append Lexes.rbrack
    simpa [append_data, row_texts, texts_toks, hfv] using this

theorem Lexes.row (d : DataArg) (h : ∀ f ∈ row_texts d, ∀ c ∈ f, json_plain c = true) :
    Lexes (append_data d) (JTok.lbrack :: texts_toks (row_texts d) ++ [JTok.rbrack]) :=
  Lexes.row_of field_val_eq d h

theorem Lexes.rows : ∀ (batch : List DataArg),
    (∀ d ∈ batch, ∀ f ∈ row_texts d, ∀ c ∈ f, json_plain c = true) →
    Lexes ([','].intercalate (batch.map append_data)) (rows_toks (batch.map row_texts)) := by
  intro batch
  induction batch with
  | nil => intro _; exact Lexes.nil
  | cons d t ih =>
    intro h
    have hd := Lexes.row d (h d (List.mem_cons_self _ _))
    have ht := ih (fun g hg => h g (List.mem_cons_of_mem _ hg))
    cases t with
    | nil => simpa [List.intercalate, rows_toks] using hd
    | cons g t =>
      have h3 := (hd.append Lexes.comma).append ht
      rw [List.map_cons, List.map_cons, intercalate_cons_cons]
      simpa [rows_toks] using h3

theorem lex_payload (batch : List DataArg)
    (h : ∀ d ∈ batch, ∀ f ∈ row_texts d, ∀ c ∈ f, json_plain c = true) :
    lex_out (payload_of batch) =
      some ([JTok.lbrace, JTok.str "values".toList, JTok.colon, JTok.lbrack] ++
        rows_toks (batch.map row_texts) ++ [JTok.rbrack, JTok.rbrace]) := by
  have h1 := ((Lexes.opening.append (Lexes.rows batch h)).append
    (Lexes.rbrack.append Lexes.rbrace)) []
  have e : lex_out [] = some [] := by simp [lex_out]
  rw [e] at h1
  simp only [List.append_nil, Option.map_some'] at h1
  exact h1

/-! ### The reader over the tokens of a batch -/

theorem parse_row_comma (rows : List (List CStr)) (cur : List CStr) (s : CStr)
    (t : List JTok) :
    parse_toks .row_next rows cur (JTok.comma :: JTok.str s :: t) =
      parse_toks .row_next rows (cur ++ [s]) t := rfl

theorem parse_row_end (rows : List (List CStr)) (cur : List CStr) (t : List JTok) :
    parse_toks .row_next rows cur (JTok.rbrack :: t) =
      parse_toks .rows_next (rows ++ [cur]) [] t := rfl

theorem parse_row_empty (rows : List (List CStr)) (cur : List CStr) (t : List JTok) :
    parse_toks .row_first rows cur (JTok.rbrack :: t) =
      parse_toks .rows_next (rows ++ [[]]) [] t := rfl

theorem parse_row_str (rows : List (List CStr)) (cur : List CStr) (s : CStr) (t : List JTok) :
    parse_toks .row_first rows cur (JTok.str s :: t) = parse_toks .row_next rows [s] t := rfl

theorem parse_rows_comma (rows : List (List CStr)) (cur : List CStr) (t : List JTok) :
    parse_toks .rows_next rows cur (JTok.comma :: JTok.lbrack :: t) =
      parse_toks .row_first rows [] t := rfl

theorem parse_rows_end (rows : List (List CStr)) (cur : List CStr) (t : List JTok) :
    parse_toks .rows_next rows cur (JTok.rbrack :: t) = parse_toks .close rows cur t := rfl

theorem parse_rows_empty (rows : List (List CStr)) (cur : List CStr) (t : List JTok) :
    parse_toks .rows_first rows cur (JTok.rbrack :: t) = parse_toks .close rows cur t := rfl

theorem parse_rows_open (rows : List (List CStr)) (cur : List CStr) (t : List JTok) :
    parse_toks .rows_first rows cur (JTok.lbrack :: t) = parse_toks .row_first rows [] t := rfl

theorem parse_opening (t : List JTok) :
    parse_toks .start [] []
        (JTok.lbrace :: JTok.str "values".toList :: JTok.colon :: JTok.lbrack :: t) =
      parse_toks .rows_first [] [] t := rfl

theorem parse_closing (rows : List (List CStr)) (cur : List CStr) :
    parse_toks .close rows cur [JTok.rbrace] = some rows := rfl

theorem parse_texts_more : ∀ (ss cur : List CStr) (rows : List (List CStr)) (rest : List JTok),
    parse_toks .row_next rows cur
        (ss.flatMap (fun x => [JTok.comma, JTok.str x]) ++ JTok.rbrack :: rest) =
      parse_toks .rows_next (rows ++ [cur ++ ss]) [] rest := by
  intro ss
  induction ss with
  | nil => intro cur rows rest; simp [parse_row_end]
  | cons s t ih =>
    intro cur rows rest
    rw [List.flatMap_cons, List.append_assoc]
    simp only [List.cons_append, List.nil_append]
    rw [parse_row_comma, ih]
    simp

theorem parse_row (r cur : List CStr) (rows : List (List CStr)) (rest : List JTok) :
    parse_toks .row_first rows cur (texts_toks r ++ JTok.rbrack :: rest) =
      parse_toks .rows_next (rows ++ [r]) [] rest := by
  cases r with
  | nil => simp [texts_toks, parse_row_empty]
  | cons s t =>
    rw [texts_toks, List.cons_append, parse_row_str, parse_texts_more]
    simp

theorem parse_rows_more : ∀ (rs rows : List (List CStr)) (rest : List JTok),
    parse_toks .rows_next rows []
        (rs.flatMap (fun x => JTok.comma :: JTok.lbrack :: (texts_toks x ++ [JTok.rbrack])) ++
          JTok.rbrack :: rest) =
      parse_toks .close (rows ++ rs) [] rest := by
  intro rs
  induction rs with
  | nil => intro rows rest; simp [parse_rows_end]
  | cons r t ih =>
    intro rows rest
    rw [List.flatMap_cons, List.append_assoc]
    simp only [List.cons_append, List.append_assoc, List.nil_append]
    rw [parse_rows_comma, parse_row, ih]
    simp

theorem parse_rows (rs : List (List CStr)) (rest : List JTok) :
    parse_toks .rows_first [] [] (rows_toks rs ++ JTok.rbrack :: rest) =
      parse_toks .close rs [] rest := by
  cases rs with
  | nil => simp [rows_toks, parse_rows_empty]
  | cons r t =>
    rw [rows_toks]
    simp only [List.cons_append, List.append_assoc, List.nil_append]
    rw [parse_rows_open, parse_row, parse_rows_more]
    simp

theorem parse_payload_of (batch : List DataArg)
    (h : ∀ d ∈ batch, ∀ f ∈ row_texts d, ∀ c ∈ f, json_plain c = true) :
    parse_payload (payload_of batch) = some (batch.map row_texts) := by
  simp only [parse_payload, lex_payload batch h, List.cons_append, List.nil_append,
    List.append_assoc]
  rw [parse_opening, parse_rows, parse_closing]

/-! ## The claim about the JSON of the payloads -/

/-- What the writer does get right: when no field text holds a double quote, a backslash or a
control character, every payload of a session without header is a well-formed JSON object
whose member `values` reads back as one array of strings per row of the batch, each string
the text of its field and a null field the empty string. -/
theorem payloads_read_back (env : Env) (rest : List OptionsArg) (response : Jsonb)
    (rows : List DataArg) (st0 : write_state) (log0 : List HttpCall) (hne : rows ≠ [])
    (hhdr : header_item rest = none)
    (hinit : init_state env rest response [] = .ok (st0, log0))
    (hplain : ∀ d ∈ rows, ∀ f ∈ row_texts d, ∀ c ∈ f, json_plain c = true) :
    ∃ out, write_session env rest response rows = .ok out ∧
      (puts out.1).map (fun c => parse_payload c.data) =
        (session_batches rows).map (fun b => some (b.map row_texts)) := by
  obtain ⟨out, h, hd⟩ := session_payloads env rest response rows st0 log0 hne hhdr hinit
  refine ⟨out, h, ?_⟩
  have h2 := congrArg (List.map parse_payload) hd
  simp only [List.map_map] at h2
  refine h2.trans ?_
  apply List.map_congr_left
  intro b hb
  apply parse_payload_of
  intro d hd'
  apply hplain
  rw [← batches_of_flatten (rows.length / 2000) rows]
  exact List.mem_flatten.mpr ⟨b, hb, hd'⟩

/-- An instance of the lemma above: a record with a null field, then a scalar. -/
theorem payloads_read_back_witness :
    ∃ out, write_session demo_env [] demo_response
        [DataArg.record [some "a b".toList, none], demo_row] = .ok out ∧
      (puts out.1).map (fun c => parse_payload c.data) =
        [some [["a b".toList, []], ["x".toList]]] :=
  payloads_read_back demo_env [] demo_response
    [DataArg.record [some "a b".toList, none], demo_row] demo_state demo_log (by decide) rfl
    demo_init (by decide)

/-- C4 fails on the source: the writer puts the text of a field between double quotes
without escaping it. The one field `x","y` is read back as two strings, and the payload of
the one field `a"b` is not JSON. -/
theorem payloads_quote_not_read_back :
    (∃ out, write_session demo_env [] demo_response
        [DataArg.scalar (some "x\",\"y".toList)] = .ok out ∧
      (puts out.1).map (fun c => parse_payload c.data) = [some [["x".toList, "y".toList]]] ∧
      (puts out.1).map (fun c => parse_payload c.data) ≠
        [some ([DataArg.scalar (some "x\",\"y".toList)].map row_texts)]) ∧
    (∃ out, write_session demo_env [] demo_response
        [DataArg.scalar (some "a\"b".toList)] = .ok out ∧
      (puts out.1).map (fun c => c.data) = ["\x7b\"values\": [[\"a\"b\"]]\x7d".toList] ∧
      (puts out.1).map (fun c => parse_payload c.data) = [none]) :=
  ⟨⟨_, rfl, by decide, by decide⟩, ⟨_, rfl, by decide, by decide⟩⟩

/-! ## The identifier of a sharing URL -/

theorem strchr_append_of_not_mem (c : Char) : ∀ (s rest : CStr), c ∉ s →
    strchr (s ++ rest) c = strchr rest c := by
  intro s
  induction s with
  | nil => intro rest _; rfl
  | cons d t ih =>
    intro rest h
    have hd : d ≠ c := fun e => h (by simp [e])
    have ht : c ∉ t := fun e => h (List.mem_cons_of_mem _ e)
    simp only [List.cons_append, strchr, hd, if_false]
    exact ih rest ht

theorem strstr_sharing_url (tail : CStr) :
    strstr ("https://docs.google.com/spreadsheets/d/".toList ++ tail) "/d/".toList =
      some ("/d/".toList ++ tail) := by
  simp [strstr]

/-- C5: for an identifier of 44 characters without a slash, `extract_id` applied to the
sharing URL that embeds it, followed by nothing or by a part that starts with a slash,
succeeds and returns the identifier. -/
theorem extract_id_sharing_url (id rest : CStr) (hlen : id.length = 44) (hslash : '/' ∉ id)
    (hrest : rest = [] ∨ ∃ r, rest = '/' :: r) :
    extract_id ("https://docs.google.com/spreadsheets/d/".toList ++ id ++ rest) = .ok id := by
  have h1 := strstr_sharing_url (id ++ rest)
  rw [← List.append_assoc] at h1
  have h2 : ("/d/".toList ++ (id ++ rest)).drop 3 = id ++ rest := rfl
  simp only [extract_id, h1, h2, strchr_append_of_not_mem '/' id rest hslash]
  rcases hrest with h | ⟨r, h⟩
  · subst h
    simp [strchr, hlen]
  · subst h
    simp [strchr, hlen]

/-- Witness of C5: an identifier of 44 letters, followed by `/edit`. -/
theorem extract_id_sharing_url_witness :
    extract_id ("https://docs.google.com/spreadsheets/d/".toList ++ List.replicate 44 'x' ++
      "/edit".toList) = .ok (List.replicate 44 'x') :=
  extract_id_sharing_url (List.replicate 44 'x') "/edit".toList (by decide) (by decide)
    (Or.inr ⟨"edit".toList, rfl⟩)

/-! ## The walk of `infer_types` -/

theorem list_truncate_concat (types : List Oid) (t : Oid) :
    list_truncate (types ++ [t]) (((types ++ [t]).length : Int) - 1) = types := by
  unfold list_truncate
  cases types with
  | nil => simp
  | cons a l =>
    have h : ¬ (((a :: l ++ [t]).length : Int) - 1 ≤ 0) := by
      simp only [List.length_append, List.length_cons, List.length_nil]; omega
    rw [if_neg h]
    have h2 : (((a :: l ++ [t]).length : Int) - 1).toNat = (a :: l).length := by
      simp only [List.length_append, List.length_cons, List.length_nil]; omega
    rw [h2]
    simp

theorem infer_step_key (types : List Oid) (v : CellValue) :
    infer_step types (.WJB_KEY v.key) = types ++ [v.tag] := by
  cases v <;> simp [infer_step, CellValue.key, CellValue.tag]

theorem infer_step_value (types : List Oid) (v : CellValue)
    (h : v ≠ CellValue.string "DATE".toList) :
    infer_step types (.WJB_VALUE v.scalar) = types := by
  cases v with
  | number n => simp [infer_step, CellValue.scalar, Scalar.string_val]
  | bool b => simp [infer_step, CellValue.scalar, Scalar.string_val]
  | string s =>
    have hs : s ≠ "DATE".toList := fun e => h (by rw [e])
    show (if s = "DATE".toList then _ else types) = types
    exact if_neg hs

theorem infer_step_format (types : List Oid) (t : Oid) (f : CStr) :
    infer_step (types ++ [t]) (.WJB_VALUE (.jbvString f)) =
      types ++ [if f = "DATE".toList then Oid.DATEOID else t] := by
  show (if f = "DATE".toList then _ else types ++ [t]) = _
  by_cases hf : f = "DATE".toList
  · rw [if_pos hf, if_pos hf, list_truncate_concat]
  · rw [if_neg hf, if_neg hf]

theorem elems_cons_array (es rest : List Jsonb) :
    Jsonb.elems (.array es :: rest) = Jsonb.container (.array es) ++ Jsonb.elems rest := by
  simp [Jsonb.elems]

theorem get_sample_reply (cells : List Jsonb) :
    jsonb_get_element values_path (sample_reply cells) = some (.array cells) := by
  simp [jsonb_get_element, values_path, sample_reply, path_index]

/-! ## The claims about type inference -/

theorem infer_types_over_read (id : Option CStr) (sheet : CStr) (has_header : Bool)
    (response : Jsonb) (log : List HttpCall) :
    infer_types id sheet has_header response log = .error (.out_of_bounds "params") := by
  simp [infer_types, http_get]

/-- C7 fails on the source: over a sampled row of three cells whose middle cell is empty the
walk of `infer_types` yields two tags, the Text of the third column at index 1, and the
lookup `read_sheet` makes for the third column, `list_nth_oid(types, 2)`, reads past the end
of the list. A run of `read_sheet` with inference on does not get that far: every call of
`infer_types` already reads past its array of parameters. -/
theorem infer_types_empty_cell_shifts :
    infer_walk (.array
        [SampleCell.json { value := .number "1".toList, format := none },
         Jsonb.object [],
         SampleCell.json { value := .string "x".toList, format := none }]) =
      [Oid.INT8OID, Oid.TEXTOID] ∧
    list_nth_oid (infer_walk (.array
        [SampleCell.json { value := .number "1".toList, format := none },
         Jsonb.object [],
         SampleCell.json { value := .string "x".toList, format := none }])) 1 =
      .ok Oid.TEXTOID ∧
    list_nth_oid (infer_walk (.array
        [SampleCell.json { value := .number "1".toList, format := none },
         Jsonb.object [],
         SampleCell.json { value := .string "x".toList, format := none }])) 2 =
      .error (.out_of_bounds "list_nth_oid") ∧
    read_sheet demo_env_infer no_date_in (some demo_id) (some "Sheet1".toList) false
        (region_reply [] [] [["1".toList, [], "x".toList]])
        (sample_reply
          [SampleCell.json { value := .number "1".toList, format := none },
           Jsonb.object [],
           SampleCell.json { value := .string "x".toList, format := none }]) =
      .error (.out_of_bounds "params") :=
  ⟨by rfl, by rfl, by rfl, by rfl⟩

/-! ## The loop of `read_sheet` with inference off -/

/-- The tokens of a row of string cells. -/
theorem elems_strings : ∀ (cells : List CStr),
    Jsonb.elems (cells.map (fun s => Jsonb.scalar (.jbvString s))) =
      cells.map (fun s => Tok.WJB_ELEM (.jbvString s)) := by
  intro cells
  induction cells with
  | nil => simp [Jsonb.elems]
  | cons c t ih => simp [Jsonb.elems, ih]

theorem container_region_row (r : List CStr) :
    Jsonb.container (region_row r) =
      Tok.WJB_BEGIN_ARRAY r.length ::
        (r.map (fun s => Tok.WJB_ELEM (.jbvString s)) ++ [Tok.WJB_END_ARRAY]) := by
  simp [region_row, Jsonb.container, elems_strings]

theorem elems_region_rows : ∀ (rows : List (List CStr)),
    Jsonb.elems (rows.map region_row) =
      (rows.map (fun r => Jsonb.container (region_row r))).flatten := by
  intro rows
  induction rows with
  | nil => simp [Jsonb.elems]
  | cons r t ih =>
    rw [List.map_cons, List.map_cons, List.flatten_cons, ← ih]
    exact elems_cons_array _ _

theorem pairs_scalar_members : ∀ (ms : List (CStr × Scalar)) (rest : List (CStr × Jsonb)),
    Jsonb.pairs (ms.map scalar_member ++ rest) =
      ms.flatMap (fun m => [Tok.WJB_KEY m.1, Tok.WJB_VALUE m.2]) ++ Jsonb.pairs rest := by
  intro ms
  induction ms with
  | nil => intro rest; simp
  | cons m t ih => intro rest; simp [scalar_member, Jsonb.pairs, ih]

theorem tokens_region_reply (before after : List (CStr × Scalar)) (rows : List (List CStr)) :
    (region_reply before after rows).tokens =
      Tok.WJB_BEGIN_OBJECT (before.length + (1 + after.length)) ::
        (before.flatMap (fun m => [Tok.WJB_KEY m.1, Tok.WJB_VALUE m.2]) ++
         (Tok.WJB_KEY "values".toList :: Tok.WJB_BEGIN_ARRAY rows.length ::
           ((rows.map (fun r => Jsonb.container (region_row r))).flatten ++
            (Tok.WJB_END_ARRAY ::
              (after.flatMap (fun m => [Tok.WJB_KEY m.1, Tok.WJB_VALUE m.2]) ++
               [Tok.WJB_END_OBJECT]))))) := by
  have h := pairs_scalar_members after []
  simp only [List.append_nil] at h
  simp [region_reply, Jsonb.tokens, Jsonb.container, pairs_scalar_members, Jsonb.pairs,
    elems_region_rows, h, Nat.add_comm]

section ReadLoop

variable (env : Env) (date_in : CStr → Except Err Int) (id : Option CStr) (sheet : CStr)
  (header : Bool) (sample : Jsonb)

theorem read_loop_cons_ok (st st' : read_state) (tok : Tok) (more : List Tok)
    (h : read_step env date_in id sheet header sample st tok = .ok st') :
    read_loop env date_in id sheet header sample st (tok :: more) =
      read_loop env date_in id sheet header sample st' more := by
  simp only [read_loop, h]

theorem read_loop_members : ∀ (ms : List (CStr × Scalar)) (st : read_state) (more : List Tok),
    read_loop env date_in id sheet header sample st
        (ms.flatMap (fun m => [Tok.WJB_KEY m.1, Tok.WJB_VALUE m.2]) ++ more) =
      read_loop env date_in id sheet header sample st more := by
  intro ms
  induction ms with
  | nil => intro st more; rfl
  | cons m t ih =>
    intro st more
    rw [List.flatMap_cons, List.append_assoc]
    simp only [List.cons_append, List.nil_append]
    rw [read_loop_cons_ok env date_in id sheet header sample st st (.WJB_KEY m.1) _ rfl,
      read_loop_cons_ok env date_in id sheet header sample st st (.WJB_VALUE m.2) _ rfl, ih]

theorem build_tupdesc_off (hinf : env.enable_infer_types = false) :
    ∀ (todo i : Nat) (types : List Oid) (log : List HttpCall),
    build_tupdesc env id sheet header sample todo i types log =
      .ok (List.replicate todo Oid.TEXTOID, types, log) := by
  intro todo
  induction todo with
  | zero => intro i types log; rfl
  | succ n ih =>
    intro i types log
    simp [build_tupdesc, hinf, ih, List.replicate_succ]

theorem written_values_map_some : ∀ (l : List Datum), written_values (l.map some) = some l := by
  intro l
  induction l with
  | nil => rfl
  | cons a t ih => simp [written_values, ih]

theorem putvalues_full (desc : List Oid) (row : List Datum) (h : row.length = desc.length) :
    tuplestore_putvalues (some desc) (row.map some) = .ok row := by
  have h1 : ¬ (row.map some).length < desc.length := by simp [h]
  have h2 : (row.map some).take desc.length = row.map some := by
    rw [← h]; simp [← List.map_take]
  simp only [tuplestore_putvalues, h1, if_false, h2, written_values_map_some]

theorem set_pending (done : List (Option Datum)) (n : Nat) (d : Datum) :
    (done ++ List.replicate (n + 1) none).set done.length (some d) =
      (done ++ [some d]) ++ List.replicate n none := by
  induction done with
  | nil => simp [List.replicate_succ]
  | cons a t ih => simp [ih]

theorem read_step_elem_fresh (C : Nat) (r : Bool) (vals : List (Option Datum))
    (types : List Oid) (sd : Option (List Oid)) (ts : List (List Datum)) (log : List HttpCall)
    (v : Scalar) :
    read_step env date_in id sheet header sample
        { nElems := C, is_row := r, col := 0, values := vals, types := types,
          setDesc := sd, tupstore := ts, log := log } (.WJB_ELEM v) =
      read_step env date_in id sheet header sample
        { nElems := C, is_row := r, col := 0, values := List.replicate C none, types := types,
          setDesc := sd, tupstore := ts, log := log } (.WJB_ELEM v) := by
  simp [read_step]

theorem read_step_elem_core (hinf : env.enable_infer_types = false) (C : Nat)
    (desc : List Oid) (hdesc : desc.length = C) (s : CStr) (todo done : List CStr)
    (types : List Oid) (ts : List (List Datum))
    (log : List HttpCall) (hC : done.length + (todo.length + 1) = C) :
    read_step env date_in id sheet header sample
        { nElems := C, is_row := true, col := done.length,
          values := done.map (fun x => some (Datum.text x)) ++
            List.replicate (todo.length + 1) none,
          types := types, setDesc := some desc, tupstore := ts, log := log }
        (.WJB_ELEM (.jbvString s)) =
      .ok (if todo = [] then
            { nElems := C, is_row := true, col := 0,
              values := (done ++ [s]).map (fun x => some (Datum.text x)), types := types,
              setDesc := some desc, tupstore := ts ++ [(done ++ [s]).map Datum.text],
              log := log }
          else
            { nElems := C, is_row := true, col := (done ++ [s]).length,
              values := (done ++ [s]).map (fun x => some (Datum.text x)) ++
                List.replicate todo.length none,
              types := types, setDesc := some desc, tupstore := ts, log := log }) := by
  have hset := set_pending (done.map (fun x => some (Datum.text x))) todo.length (Datum.text s)
  simp only [List.length_map] at hset
  have hlt : done.length < (done.map (fun x => some (Datum.text x)) ++
      List.replicate (todo.length + 1) (none : Option Datum)).length := by simp
  have hfresh : (if done.length = 0 then
      ({ nElems := C, is_row := true, col := done.length,
         values := List.replicate C none, types := types, setDesc := some desc,
         tupstore := ts, log := log } : read_state)
      else { nElems := C, is_row := true, col := done.length,
             values := done.map (fun x => some (Datum.text x)) ++
               List.replicate (todo.length + 1) none,
             types := types, setDesc := some desc, tupstore := ts, log := log }) =
      { nElems := C, is_row := true, col := done.length,
        values := done.map (fun x => some (Datum.text x)) ++
          List.replicate (todo.length + 1) none,
        types := types, setDesc := some desc, tupstore := ts, log := log } := by
    cases done with
    | nil => simp at hC; simp [hC]
    | cons a t => simp
  simp only [read_step, hinf, Scalar.string_val, hfresh, hlt, if_true, hset]
  by_cases ht : todo = []
  · subst ht
    have hput := putvalues_full desc ((done ++ [s]).map Datum.text)
      (by simp [hdesc]; simpa using hC)
    simp only [List.map_map, List.map_append, List.map_cons, List.map_nil,
      Function.comp_def] at hput
    have hcol : done.length + 1 = C := by simpa using hC
    simp [hcol, hput]
  · have hcol : ¬ done.length + 1 = C := by
      have : todo.length ≠ 0 := fun e => ht (List.length_eq_zero.mp e)
      omega
    simp [hcol, ht, List.replicate_succ]

end ReadLoop

section ReadRows

variable (env : Env) (date_in : CStr → Except Err Int) (id : Option CStr) (sheet : CStr)
  (header : Bool) (sample : Jsonb)

theorem read_loop_elems (hinf : env.enable_infer_types = false) (C : Nat) (desc : List Oid)
    (hdesc : desc.length = C) (types : List Oid) (log : List HttpCall) (more : List Tok) :
    ∀ (todo done : List CStr) (ts : List (List Datum)), done.length + todo.length = C →
    todo ≠ [] →
    read_loop env date_in id sheet header sample
        { nElems := C, is_row := true, col := done.length,
          values := done.map (fun x => some (Datum.text x)) ++
            List.replicate todo.length none,
          types := types, setDesc := some desc, tupstore := ts, log := log }
        (todo.map (fun s => Tok.WJB_ELEM (.jbvString s)) ++ more) =
      read_loop env date_in id sheet header sample
        { nElems := C, is_row := true, col := 0,
          values := (done ++ todo).map (fun x => some (Datum.text x)),
          types := types, setDesc := some desc,
          tupstore := ts ++ [(done ++ todo).map Datum.text], log := log } more := by
  intro todo
  induction todo with
  | nil => intro done ts _ h; exact absurd rfl h
  | cons s t ih =>
    intro done ts hC _
    have e : (s :: t).length = t.length + 1 := rfl
    rw [e, List.map_cons, List.cons_append,
      read_loop_cons_ok env date_in id sheet header sample _ _ _ _
        (read_step_elem_core env date_in id sheet header sample hinf C desc hdesc s t done
          types ts log (by simpa using hC))]
    by_cases ht : t = []
    · subst ht; simp
    · rw [if_neg ht]
      have := ih (done ++ [s]) ts (by simp at hC ⊢; omega) ht
      simpa using this

theorem read_loop_row (hinf : env.enable_infer_types = false) (r : List CStr) (hr : r ≠ [])
    (n0 : Nat) (vals : List (Option Datum)) (types : List Oid) (sd : Option (List Oid))
    (hsd : sd = none ∨ sd = some (List.replicate r.length Oid.TEXTOID))
    (ts : List (List Datum)) (log : List HttpCall) (more : List Tok) :
    read_loop env date_in id sheet header sample
        { nElems := n0, is_row := true, col := 0, values := vals, types := types,
          setDesc := sd, tupstore := ts, log := log }
        (Jsonb.container (region_row r) ++ more) =
      read_loop env date_in id sheet header sample
        { nElems := r.length, is_row := true, col := 0,
          values := r.map (fun x => some (Datum.text x)), types := types,
          setDesc := some (List.replicate r.length Oid.TEXTOID),
          tupstore := ts ++ [r.map Datum.text], log := log } more := by
  have hpos : r.length > 0 := List.length_pos.mpr hr
  have hbegin : read_step env date_in id sheet header sample
      { nElems := n0, is_row := true, col := 0, values := vals, types := types,
        setDesc := sd, tupstore := ts, log := log } (.WJB_BEGIN_ARRAY r.length) =
      .ok { nElems := r.length, is_row := true, col := 0, values := vals, types := types,
            setDesc := some (List.replicate r.length Oid.TEXTOID), tupstore := ts,
            log := log } := by
    rcases hsd with h | h
    · subst h
      simp [read_step, hpos, build_tupdesc_off env id sheet header sample hinf]
    · subst h
      simp [read_step]
  rw [container_region_row, List.cons_append,
    read_loop_cons_ok env date_in id sheet header sample _ _ _ _ hbegin]
  obtain ⟨s, t, rfl⟩ := List.exists_cons_of_ne_nil hr
  have h := read_loop_elems env date_in id sheet header sample hinf (s :: t).length
    (List.replicate (s :: t).length Oid.TEXTOID) (by simp) types log
    ([Tok.WJB_END_ARRAY] ++ more) (s :: t) [] ts (by simp) (by simp)
  have hfresh : read_loop env date_in id sheet header sample
      { nElems := (s :: t).length, is_row := true, col := 0, values := vals, types := types,
        setDesc := some (List.replicate (s :: t).length Oid.TEXTOID), tupstore := ts,
        log := log }
      ((s :: t).map (fun s => Tok.WJB_ELEM (.jbvString s)) ++ ([Tok.WJB_END_ARRAY] ++ more)) =
      read_loop env date_in id sheet header sample
      { nElems := (s :: t).length, is_row := true, col := 0,
        values := List.replicate (s :: t).length none, types := types,
        setDesc := some (List.replicate (s :: t).length Oid.TEXTOID), tupstore := ts,
        log := log }
      ((s :: t).map (fun s => Tok.WJB_ELEM (.jbvString s)) ++ ([Tok.WJB_END_ARRAY] ++ more)) := by
    simp only [List.map_cons, List.cons_append, read_loop, read_step_elem_fresh]
  rw [List.append_assoc, hfresh]
  refine Eq.trans h ?_
  exact read_loop_cons_ok env date_in id sheet header sample _ _ _ _ rfl

theorem read_loop_rows (hinf : env.enable_infer_types = false) (C : Nat) (hC : 0 < C)
    (types : List Oid) (log : List HttpCall) (more : List Tok) :
    ∀ (rows : List (List CStr)), (∀ r ∈ rows, r.length = C) →
    ∀ (n0 : Nat) (vals : List (Option Datum)) (sd : Option (List Oid)),
    (sd = none ∨ sd = some (List.replicate C Oid.TEXTOID)) → ∀ (ts : List (List Datum)),
    ∃ n1 vals1 sd1, (rows = [] → sd1 = sd) ∧
      (rows ≠ [] → sd1 = some (List.replicate C Oid.TEXTOID)) ∧
      read_loop env date_in id sheet header sample
          { nElems := n0, is_row := true, col := 0, values := vals, types := types,
            setDesc := sd, tupstore := ts, log := log }
          ((rows.map (fun r => Jsonb.container (region_row r))).flatten ++ more) =
        read_loop env date_in id sheet header sample
          { nElems := n1, is_row := true, col := 0, values := vals1, types := types,
            setDesc := sd1, tupstore := ts ++ rows.map (List.map Datum.text), log := log }
          more := by
  intro rows
  induction rows with
  | nil =>
    intro _ n0 vals sd _ ts
    exact ⟨n0, vals, sd, fun _ => rfl, fun h => absurd rfl h, by simp⟩
  | cons r t ih =>
    intro hrows n0 vals sd hsd ts
    have hr : r.length = C := hrows r (List.mem_cons_self _ _)
    have hne : r ≠ [] := by
      intro e; rw [e] at hr; simp at hr; omega
    obtain ⟨n1, vals1, sd1, h1, h2, h3⟩ := ih (fun x hx => hrows x (List.mem_cons_of_mem _ hx))
      C (r.map (fun x => some (Datum.text x))) (some (List.replicate C Oid.TEXTOID))
      (Or.inr rfl) (ts ++ [r.map Datum.text])
    refine ⟨n1, vals1, sd1, fun h => absurd h (List.cons_ne_nil _ _), fun _ => ?_, ?_⟩
    · by_cases ht : t = []
      · exact h1 ht
      · exact h2 ht
    · have hrow := read_loop_row env date_in id sheet header sample hinf r hne n0 vals types sd
        (by rw [hr]; exact hsd) ts log
        ((t.map (fun r => Jsonb.container (region_row r))).flatten ++ more)
      rw [hr] at hrow
      rw [List.map_cons, List.flatten_cons, List.append_assoc, hrow, h3]
      simp

end ReadRows

/-! ## The claim about a rectangular region -/

section Skips

variable (env : Env) (date_in : CStr → Except Err Int) (id : Option CStr) (sheet : CStr)
  (header : Bool) (sample : Jsonb) (st : read_state) (more : List Tok)

theorem read_loop_key (k : CStr) :
    read_loop env date_in id sheet header sample st (.WJB_KEY k :: more) =
      read_loop env date_in id sheet header sample st more := rfl

theorem read_loop_begin_object (n : Nat) :
    read_loop env date_in id sheet header sample st (.WJB_BEGIN_OBJECT n :: more) =
      read_loop env date_in id sheet header sample st more := rfl

theorem read_loop_end_object :
    read_loop env date_in id sheet header sample st (.WJB_END_OBJECT :: more) =
      read_loop env date_in id sheet header sample st more := rfl

theorem read_loop_end_array :
    read_loop env date_in id sheet header sample st (.WJB_END_ARRAY :: more) =
      read_loop env date_in id sheet header sample st more := rfl

theorem read_loop_outer_array (n : Nat) (log : List HttpCall) :
    read_loop env date_in id sheet header sample
        { nElems := 0, is_row := false, col := 0, values := [], types := [], setDesc := none,
          tupstore := [], log := log } (.WJB_BEGIN_ARRAY n :: more) =
      read_loop env date_in id sheet header sample
        { nElems := 0, is_row := true, col := 0, values := [], types := [], setDesc := none,
          tupstore := [], log := log } more := by
  simp [read_loop, read_step]

end Skips

/-- C8: with a credential, an identifier that resolves and inference off, `read_sheet` on a
reply whose member `values` holds R >= 1 rows of exactly C >= 1 string cells each succeeds and
emits exactly these rows, in the order of the reply, each as C Text fields equal to its cells
in column order; the descriptor has C Text columns. -/
theorem read_sheet_rectangular (env : Env) (date_in : CStr → Except Err Int)
    (token url id sheet : CStr) (header : Bool) (before after : List (CStr × Scalar))
    (rows : List (List CStr)) (sample : Jsonb) (C : Nat)
    (htok : env.access_token = some token) (htne : token ≠ [])
    (hinf : env.enable_infer_types = false) (hid : read_sheet_id url = .ok id)
    (hC : 0 < C) (hrows : rows ≠ []) (hrect : ∀ r ∈ rows, r.length = C) :
    ∃ st, read_sheet env date_in (some url) (some sheet) header
        (region_reply before after rows) sample = .ok st ∧
      st.tupstore = rows.map (List.map Datum.text) ∧
      st.setDesc = some (List.replicate C Oid.TEXTOID) := by
  have hlen : ¬ token.length = 0 := fun e => htne (List.length_eq_zero.mp e)
  obtain ⟨n1, vals1, sd1, _, hsd, hloop⟩ :=
    read_loop_rows env date_in (some id) sheet header sample hinf C hC [] 
      [{ method := .GET,
         url := SHEET_URL (some id) (if header then sheet else sheet ++ "!A2:Z".toList),
         data := [], params := [],
         headers := add_header [] "Authorization".toList ("Bearer ".toList ++ token) }]
      (Tok.WJB_END_ARRAY ::
        (after.flatMap (fun m => [Tok.WJB_KEY m.1, Tok.WJB_VALUE m.2]) ++ [Tok.WJB_END_OBJECT]))
      rows hrect 0 [] none (Or.inl rfl) []
  refine ⟨{ nElems := n1, is_row := true, col := 0, values := vals1, types := [],
            setDesc := sd1, tupstore := rows.map (List.map Datum.text),
            log := [{ method := .GET,
                      url := SHEET_URL (some id)
                        (if header then sheet else sheet ++ "!A2:Z".toList),
                      data := [], params := [],
                      headers := add_header [] "Authorization".toList
                        ("Bearer ".toList ++ token) }] }, ?_, rfl, hsd hrows⟩
  simp only [read_sheet, htok, hlen, if_false, hid, tokens_region_reply]
  rw [read_loop_begin_object, read_loop_members, read_loop_key, read_loop_outer_array, hloop,
    read_loop_end_array, read_loop_members, read_loop_end_object]
  simp [read_loop]

/-- Witness of C8: the sheet of 3 columns and 2 rows, read without header. -/
theorem read_sheet_rectangular_witness :
    ∃ st, read_sheet demo_env no_date_in (some demo_id) (some "Sheet1".toList) false
        (region_reply [("range".toList, .jbvString "Sheet1!A2:Z1000".toList)]
          [("majorDimension".toList, .jbvString "ROWS".toList)]
          [["a".toList, "b".toList, "c".toList], ["d".toList, "e".toList, "f".toList]])
        (sample_reply []) = .ok st ∧
      st.tupstore =
        [[Datum.text "a".toList, Datum.text "b".toList, Datum.text "c".toList],
         [Datum.text "d".toList, Datum.text "e".toList, Datum.text "f".toList]] ∧
      st.setDesc = some [Oid.TEXTOID, Oid.TEXTOID, Oid.TEXTOID] :=
  read_sheet_rectangular demo_env no_date_in "token".toList demo_id demo_id "Sheet1".toList
    false [("range".toList, .jbvString "Sheet1!A2:Z1000".toList)]
    [("majorDimension".toList, .jbvString "ROWS".toList)]
    [["a".toList, "b".toList, "c".toList], ["d".toList, "e".toList, "f".toList]]
    (sample_reply []) 3 rfl (by decide) rfl (by rfl) (by decide) (by decide) (by decide)

/-! ## Short rows and the integer decoder -/

/-- C9 fails on the source. After a first row of two cells, a row of one cell makes
`read_sheet` allocate one slot and form a row of the two columns of the descriptor from it,
reading a slot it never allocated; a row of no cell at all makes no row: of the three rows
`a b`, empty, `c d` only two are emitted. -/
theorem read_sheet_short_row :
    read_sheet demo_env no_date_in (some demo_id) (some "Sheet1".toList) false
        (region_reply [] [] [["a".toList, "b".toList], ["c".toList]]) (sample_reply []) =
      .error (.out_of_bounds "values") ∧
    (∃ st, read_sheet demo_env no_date_in (some demo_id) (some "Sheet1".toList) false
        (region_reply [] [] [["a".toList, "b".toList], [], ["c".toList, "d".toList]])
        (sample_reply []) = .ok st ∧
      st.tupstore = [[Datum.text "a".toList, Datum.text "b".toList],
                     [Datum.text "c".toList, Datum.text "d".toList]]) :=
  ⟨by rfl, ⟨_, rfl, rfl⟩⟩

/-- C10 fails on the source for integers: a column tagged with the 64-bit integer type is
decoded with `int4in`, so the 64-bit value 2147483648, rendered `2147483648`, is rejected as
out of range; the value 42 comes back. -/
theorem decode_int8_out_of_range :
    output_text (.int8 2147483648) = "2147483648".toList ∧
    decode_cell no_date_in (Value.int8 2147483648).tag (output_text (.int8 2147483648)) =
      .error .NUMERIC_VALUE_OUT_OF_RANGE ∧
    decode_cell no_date_in (Value.int8 42).tag (output_text (.int8 42)) =
      .ok (Value.int8 42).datum :=
  ⟨by decide, by decide, by decide⟩

/-- Booleans and texts come back from the decoder as they were written. -/
theorem decode_bool_text (date_in : CStr → Except Err Int) (v : Value)
    (h : v.tag ≠ Oid.INT8OID) :
    decode_cell date_in v.tag (output_text v) = .ok v.datum := by
  cases v with
  | int8 i => exact absurd rfl h
  | bool b => cases b <;> rfl
  | text s => rfl

/-! ## The opening of `read_sheet` -/

theorem read_sheet_eq_fetch (env : Env) (date_in : CStr → Except Err Int)
    (url sheet : Option CStr) (header : Bool) (response sample : Jsonb) :
    read_sheet env date_in url sheet header response sample =
      match read_sheet_fetch env url sheet header with
      | (_, .error e) => .error e
      | (log, .ok (id, sh)) =>
        read_loop env date_in (some id) sh header sample (read_state_init log) response.tokens := by
  unfold read_sheet read_sheet_fetch read_state_init
  cases env.access_token with
  | none => rfl
  | some token =>
    by_cases ht : token.length = 0
    · simp [ht]
    · simp only [ht, if_false]
      cases url with
      | none => rfl
      | some u =>
        simp only
        cases read_sheet_id u with
        | error e => rfl
        | ok id =>
          cases sheet with
          | none => rfl
          | some s => rfl

theorem extract_id_length (u id : CStr) (h : extract_id u = .ok id) : id.length = 44 := by
  unfold extract_id at h
  split at h
  · simp at h
  · rename_i at_d _
    simp only at h
    split at h
    · simp at h
    · rename_i hlen
      simp only [ne_eq, Decidable.not_not] at hlen
      simp only [Except.ok.injEq] at h
      rw [← h, hlen, List.length_take]
      have : 44 ≤ (at_d.drop 3).length := by
        revert hlen
        cases strchr (List.drop 3 at_d) '/' <;> simp <;> omega
      omega

theorem read_sheet_id_invalid (u : CStr) (e : Err) (h : read_sheet_id u = .error e) :
    ∃ m, e = .INVALID_PARAMETER_VALUE m := by
  unfold read_sheet_id at h
  split at h
  · unfold extract_id at h
    split at h
    · exact ⟨_, (Except.error.inj h).symm⟩
    · simp only at h
      split at h
      · exact ⟨_, (Except.error.inj h).symm⟩
      · simp at h
  · split at h
    · simp at h
    · exact ⟨_, (Except.error.inj h).symm⟩

theorem read_sheet_id_error_iff (u : CStr) :
    (∃ e, read_sheet_id u = .error e) ↔
      ((validate_url u = true ∧ ∀ id, extract_id u ≠ .ok id) ∨
       (validate_url u = false ∧ u.length ≠ 44)) := by
  unfold read_sheet_id
  by_cases hv : validate_url u = true
  · simp only [hv, if_true, true_and, Bool.true_eq_false, false_and, or_false]
    cases h : extract_id u with
    | error e => simp
    | ok id => simp
  · have hv' : validate_url u = false := by simpa using hv
    simp only [hv', Bool.false_eq_true, if_false, false_and, false_or, true_and]
    by_cases hl : u.length = 44
    · simp [hl]
    · simp [hl]

/-! ## The string functions by shape -/

theorem strstr_none : ∀ (s needle : CStr), strstr s needle = none →
    ¬ ∃ p q, s = p ++ needle ++ q := by
  intro s
  induction s with
  | nil =>
    intro needle h ⟨p, q, e⟩
    by_cases hn : needle = []
    · simp [strstr, hn] at h
    · have := congrArg List.length e
      simp only [List.length_nil, List.length_append] at this
      exact hn (List.length_eq_zero.mp (by omega))
  | cons c t ih =>
    intro needle h ⟨p, q, e⟩
    unfold strstr at h
    by_cases hp : needle.isPrefixOf (c :: t) = true
    · simp [hp] at h
    · simp only [hp, if_false] at h
      cases p with
      | nil =>
        apply hp
        rw [List.isPrefixOf_iff_prefix, e]
        exact ⟨q, by simp⟩
      | cons a p' =>
        simp only [List.cons_append, List.cons.injEq] at e
        exact ih needle h ⟨p', q, e.2⟩

theorem strstr_some : ∀ (s needle t : CStr), strstr s needle = some t →
    ∃ pre rest, s = pre ++ t ∧ t = needle ++ rest ∧
      ∀ p q, s = p ++ needle ++ q → pre.length ≤ p.length := by
  intro s
  induction s with
  | nil =>
    intro needle t h
    by_cases hn : needle = []
    · simp only [strstr, hn, if_true, Option.some.injEq] at h
      subst h hn
      exact ⟨[], [], rfl, rfl, fun _ _ _ => Nat.zero_le _⟩
    · simp [strstr, hn] at h
  | cons c t ih =>
    intro needle t' h
    unfold strstr at h
    by_cases hp : needle.isPrefixOf (c :: t) = true
    · simp only [hp, if_true, Option.some.injEq] at h
      subst h
      obtain ⟨rest, hr⟩ := List.isPrefixOf_iff_prefix.mp hp
      exact ⟨[], rest, rfl, hr.symm, fun _ _ _ => Nat.zero_le _⟩
    · simp only [hp, if_false] at h
      obtain ⟨pre, rest, h1, h2, h3⟩ := ih needle t' h
      refine ⟨c :: pre, rest, by rw [h1]; rfl, h2, ?_⟩
      intro p q e
      cases p with
      | nil =>
        exfalso
        apply hp
        rw [List.isPrefixOf_iff_prefix, e]
        exact ⟨q, by simp⟩
      | cons a p' =>
        simp only [List.cons_append, List.cons.injEq] at e
        have := h3 p' q e.2
        simp only [List.length_cons]
        omega

theorem strchr_none : ∀ (s : CStr) (c : Char), strchr s c = none → c ∉ s := by
  intro s
  induction s with
  | nil => intro c _; simp
  | cons d t ih =>
    intro c h
    unfold strchr at h
    by_cases hd : d = c
    · simp [hd] at h
    · simp only [hd, if_false] at h
      simp only [List.mem_cons, not_or]
      exact ⟨fun e => hd e.symm, ih c h⟩

theorem strchr_some : ∀ (s : CStr) (c : Char) (e : CStr), strchr s c = some e →
    ∃ a t, s = a ++ e ∧ c ∉ a ∧ e = c :: t := by
  intro s
  induction s with
  | nil => intro c e h; simp [strchr] at h
  | cons d t ih =>
    intro c e h
    unfold strchr at h
    by_cases hd : d = c
    · subst hd
      simp only [if_true, Option.some.injEq] at h
      subst h
      exact ⟨[], t, rfl, by simp, rfl⟩
    · simp only [hd, if_false] at h
      obtain ⟨a, t', h1, h2, h3⟩ := ih c e h
      refine ⟨d :: a, t', by rw [h1]; rfl, ?_, h3⟩
      simp only [List.mem_cons, not_or]
      exact ⟨fun e => hd e.symm, h2⟩

theorem strchr_skip : ∀ (a e : CStr) (c : Char), c ∉ a → strchr (a ++ e) c = strchr e c := by
  intro a
  induction a with
  | nil => intro e c _; rfl
  | cons d t ih =>
    intro e c h
    simp only [List.mem_cons, not_or] at h
    have hd : ¬ d = c := fun x => h.1 x.symm
    simp only [List.cons_append, strchr, hd, if_false]
    exact ih e c h.2

theorem strstr_holds (u : CStr) :
    (match strstr u "https://docs.google.com/spreadsheets/".toList with
      | none => false
      | some _ => true) = true ↔ holds_text u sharing_address := by
  constructor
  · intro h
    cases hs : strstr u "https://docs.google.com/spreadsheets/".toList with
    | none => rw [hs] at h; exact absurd h (by decide)
    | some t =>
      obtain ⟨pre, rest, h1, h2, _⟩ := strstr_some _ _ _ hs
      exact ⟨pre, rest, by rw [h1, h2, List.append_assoc]; rfl⟩
  · intro h
    cases hs : strstr u "https://docs.google.com/spreadsheets/".toList with
    | none => exact absurd h (strstr_none _ _ hs)
    | some t => rfl

theorem validate_url_iff (u : CStr) : validate_url u = true ↔ holds_text u sharing_address :=
  strstr_holds u

theorem strstr_first (u needle pre post : CStr) (h : first_at u needle pre post) :
    strstr u needle = some (needle ++ post) := by
  obtain ⟨h1, h2⟩ := h
  cases hs : strstr u needle with
  | none => exact absurd ⟨pre, post, h1⟩ (strstr_none _ _ hs)
  | some t =>
    obtain ⟨pre', rest, e1, e2, e3⟩ := strstr_some _ _ _ hs
    have l1 := e3 pre post h1
    have l2 := h2 pre' rest (by rw [e1, e2, List.append_assoc])
    have hl : pre'.length = pre.length := by omega
    have e : pre' ++ t = pre ++ (needle ++ post) := by
      rw [← e1, h1, List.append_assoc]
    rw [(List.append_inj e hl).2]

/-- The text `strstr` and `strchr` cut out after the first `/d/`, when it has 44
characters, is the identifier of the URL by its shape. -/
theorem segment_iff (u id : CStr) :
    (match strstr u "/d/".toList with
      | none => (Except.error (Err.INVALID_PARAMETER_VALUE "invalid URL") : Except Err CStr)
      | some at_d =>
        if (match strchr (at_d.drop 3) '/' with
            | some e => (at_d.drop 3).length - e.length
            | none => (at_d.drop 3).length) ≠ 44
        then .error (.INVALID_PARAMETER_VALUE "Invalid Sheet id")
        else .ok ((at_d.drop 3).take
          (match strchr (at_d.drop 3) '/' with
            | some e => (at_d.drop 3).length - e.length
            | none => (at_d.drop 3).length))) = .ok id ↔ url_id u id := by
  constructor
  · intro h
    cases hs : strstr u "/d/".toList with
    | none => rw [hs] at h; exact absurd h (by simp)
    | some at_d =>
      obtain ⟨pre, start, e1, e2, e3⟩ := strstr_some _ _ _ hs
      have hd : at_d.drop 3 = start := by rw [e2]; rfl
      rw [hs] at h
      dsimp only at h
      rw [hd] at h
      cases hc : strchr start '/' with
      | none =>
        simp only [hc] at h
        by_cases hl : start.length = 44
        · simp only [hl, ne_eq, not_true_eq_false, if_false, Except.ok.injEq] at h
          have hid : id = start := by rw [← h, ← hl, List.take_length]
          subst hid
          exact ⟨pre, [], ⟨by rw [e1, e2, List.append_nil, List.append_assoc], e3⟩, hl,
            strchr_none _ _ hc, Or.inl rfl⟩
        · simp [hl] at h
      | some e =>
        simp only [hc] at h
        obtain ⟨a, t, f1, f2, f3⟩ := strchr_some _ _ _ hc
        have hlen : start.length - e.length = a.length := by
          rw [f1, List.length_append]; omega
        rw [hlen] at h
        by_cases hl : a.length = 44
        · simp only [hl, ne_eq, not_true_eq_false, if_false, Except.ok.injEq] at h
          have hid : id = a := by rw [← h, f1, List.take_left' hl]
          subst hid
          exact ⟨pre, e, ⟨by rw [e1, e2, f1, List.append_assoc], e3⟩, hl, f2, Or.inr ⟨t, f3⟩⟩
        · simp [hl] at h
  · rintro ⟨pre, post, hf, hl, hn, hp⟩
    have hs := strstr_first _ _ _ _ hf
    have hd : ("/d/".toList ++ (id ++ post)).drop 3 = id ++ post := rfl
    have hc : strchr (id ++ post) '/' = strchr post '/' := strchr_skip id post '/' hn
    simp only [hs, hd, hc]
    rcases hp with rfl | ⟨t, rfl⟩
    · simp [strchr, hl]
    · simp [strchr, hl, List.take_left' hl]

theorem extract_id_iff (u id : CStr) : extract_id u = .ok id ↔ url_id u id :=
  segment_iff u id

theorem rejected_args_iff (url sheet : Option CStr)
    (hv : ∀ u, validate_url u = true ↔ holds_text u sharing_address)
    (he : ∀ u id, extract_id u = .ok id ↔ url_id u id) :
    rejected_args url sheet ↔
      (url = none ∨ sheet = none ∨
        ∃ u, url = some u ∧
          ((validate_url u = true ∧ ∀ id, extract_id u ≠ .ok id) ∨
           (validate_url u = false ∧ u.length ≠ 44))) := by
  have h1 : ∀ u, (¬ ∃ id, url_id u id) ↔ ∀ id, extract_id u ≠ .ok id := by
    intro u
    constructor
    · intro h id hx
      exact h ⟨id, (he u id).mp hx⟩
    · rintro h ⟨id, hi⟩
      exact h id ((he u id).mpr hi)
  have h2 : ∀ u, ¬ holds_text u sharing_address ↔ validate_url u = false := by
    intro u
    rw [← hv]
    simp
  unfold rejected_args
  simp only [h1, h2, hv]

theorem read_sheet_id_ok (u id : CStr) (h : read_sheet_id u = .ok id) :
    id.length = 44 ∧
      ((validate_url u = true ∧ extract_id u = .ok id) ∨ (validate_url u = false ∧ id = u)) := by
  unfold read_sheet_id at h
  by_cases hv : validate_url u = true
  · simp only [hv, if_true] at h
    exact ⟨extract_id_length u id h, Or.inl ⟨hv, h⟩⟩
  · have hv' : validate_url u = false := by simpa using hv
    simp only [hv', Bool.false_eq_true, if_false] at h
    by_cases hl : u.length = 44
    · simp only [hl, if_true, Except.ok.injEq] at h
      exact ⟨by rw [← h]; exact hl, Or.inr ⟨hv', h.symm⟩⟩
    · simp [hl] at h

theorem read_sheet_fetch_with_token (env : Env) (token : CStr) (url sheet : Option CStr)
    (header : Bool) (htok : env.access_token = some token) (hne : token ≠ []) :
    read_sheet_fetch env url sheet header =
      match url with
      | none => ([], .error (.INVALID_PARAMETER_VALUE "URL or sheet id is required"))
      | some u =>
        match read_sheet_id u with
        | .error e => ([], .error e)
        | .ok id =>
          match sheet with
          | none => ([], .error (.INVALID_PARAMETER_VALUE "Sheet name is required"))
          | some s =>
            ([{ method := .GET,
                url := SHEET_URL (some id) (if header then s else s ++ "!A2:Z".toList),
                data := [], params := [],
                headers := add_header [] "Authorization".toList ("Bearer ".toList ++ token) }],
             .ok (id, s)) := by
  have hlen : ¬ token.length = 0 := fun e => hne (List.length_eq_zero.mp e)
  simp only [read_sheet_fetch, htok, hlen, if_false]

/-- C11, as the source has it: with a non-empty credential the opening of `read_sheet` raises
an invalid-parameter error, no transport call made, exactly when the identifier argument is
null, or the sheet name is null, or the identifier string holds the address of the service
but its first `/d/` is missing or is not followed by exactly 44 characters up to the next
`/` or the end of the string, or does not hold the address and has not exactly 44
characters; `read_sheet` then returns that error whatever the service would reply.
Otherwise the fetch is made, with the 44 characters after the first `/d/` of the URL, or
with the string itself when it does not hold the address. -/
theorem read_sheet_validation (env : Env) (token : CStr) (url sheet : Option CStr)
    (header : Bool) (htok : env.access_token = some token) (hne : token ≠ []) :
    ((∃ m, read_sheet_fetch env url sheet header =
        ([], .error (.INVALID_PARAMETER_VALUE m))) ↔ rejected_args url sheet) ∧
    (rejected_args url sheet → ∃ m, ∀ date_in response sample,
      read_sheet env date_in url sheet header response sample =
        .error (.INVALID_PARAMETER_VALUE m)) ∧
    (¬ rejected_args url sheet → ∃ u s id, url = some u ∧ sheet = some s ∧ id.length = 44 ∧
      ((holds_text u sharing_address ∧ url_id u id) ∨
       (¬ holds_text u sharing_address ∧ id = u)) ∧
      read_sheet_fetch env url sheet header =
        ([{ method := .GET,
            url := SHEET_URL (some id) (if header then s else s ++ "!A2:Z".toList),
            data := [], params := [],
            headers := add_header [] "Authorization".toList ("Bearer ".toList ++ token) }],
         .ok (id, s))) := by
  have hf := read_sheet_fetch_with_token env token url sheet header htok hne
  have hv : ∀ u, validate_url u = true ↔ holds_text u sharing_address :=
    fun u => strstr_holds u
  have he : ∀ u id, extract_id u = .ok id ↔ url_id u id := fun u id => segment_iff u id
  have hshape : ∀ u id, ((validate_url u = true ∧ extract_id u = .ok id) ∨
      (validate_url u = false ∧ id = u)) →
      ((holds_text u sharing_address ∧ url_id u id) ∨
       (¬ holds_text u sharing_address ∧ id = u)) := by
    intro u id h
    rcases h with ⟨h1, h2⟩ | ⟨h1, h2⟩
    · exact Or.inl ⟨(hv u).mp h1, (he u id).mp h2⟩
    · refine Or.inr ⟨fun hh => ?_, h2⟩
      rw [(hv u).mpr hh] at h1
      exact absurd h1 (by decide)
  have key : (rejected_args url sheet ∧ ∃ m, read_sheet_fetch env url sheet header =
        ([], .error (.INVALID_PARAMETER_VALUE m))) ∨
      (¬ rejected_args url sheet ∧ ∃ u s id, url = some u ∧ sheet = some s ∧ id.length = 44 ∧
        ((holds_text u sharing_address ∧ url_id u id) ∨
         (¬ holds_text u sharing_address ∧ id = u)) ∧
        read_sheet_fetch env url sheet header =
          ([{ method := .GET,
              url := SHEET_URL (some id) (if header then s else s ++ "!A2:Z".toList),
              data := [], params := [],
              headers := add_header [] "Authorization".toList ("Bearer ".toList ++ token) }],
           .ok (id, s))) := by
    rw [rejected_args_iff url sheet hv he]
    cases url with
    | none => exact Or.inl ⟨Or.inl rfl, _, hf⟩
    | some u =>
      cases hid : read_sheet_id u with
      | error e =>
        obtain ⟨m, hm⟩ := read_sheet_id_invalid u e hid
        refine Or.inl ⟨Or.inr (Or.inr ⟨u, rfl, (read_sheet_id_error_iff u).mp ⟨e, hid⟩⟩), m, ?_⟩
        rw [hf]; simp only [hid, hm]
      | ok id =>
        cases sheet with
        | none =>
          refine Or.inl ⟨Or.inr (Or.inl rfl), "Sheet name is required", ?_⟩
          rw [hf]; simp only [hid]
        | some s =>
          refine Or.inr ⟨?_, u, s, id, rfl, rfl, (read_sheet_id_ok u id hid).1,
            hshape u id (read_sheet_id_ok u id hid).2, ?_⟩
          · rintro (h | h | ⟨u', hu, h⟩)
            · simp at h
            · simp at h
            · have hu' : u = u' := by simpa using hu
              subst hu'
              obtain ⟨e, he⟩ := (read_sheet_id_error_iff u).mpr h
              rw [hid] at he
              simp at he
          · rw [hf]; simp only [hid]
  rcases key with ⟨hr, m, hm⟩ | ⟨hr, u, s, id, hu, hs, hl, hor, hfetch⟩
  · refine ⟨⟨fun _ => hr, fun _ => ⟨m, hm⟩⟩, fun _ => ⟨m, ?_⟩, fun h => absurd hr h⟩
    intro date_in response sample
    rw [read_sheet_eq_fetch, hm]
  · refine ⟨⟨?_, fun h => absurd h hr⟩, fun h => absurd h hr,
      fun _ => ⟨u, s, id, hu, hs, hl, hor, hfetch⟩⟩
    rintro ⟨m, hm⟩
    rw [hfetch] at hm
    simp at hm

/-- Witness of the amended C11: a sharing URL and a sheet name; the fetch uses the 44
characters of the URL. -/
theorem read_sheet_validation_witness :
    ¬ rejected_args (some ("https://docs.google.com/spreadsheets/d/".toList ++ demo_id ++
        "/edit".toList)) (some "Sheet1".toList) ∧
    read_sheet_fetch demo_env (some ("https://docs.google.com/spreadsheets/d/".toList ++
        demo_id ++ "/edit".toList)) (some "Sheet1".toList) false =
      ([{ method := .GET,
          url := SHEET_URL (some demo_id) ("Sheet1".toList ++ "!A2:Z".toList),
          data := [], params := [],
          headers := add_header [] "Authorization".toList
            ("Bearer ".toList ++ "token".toList) }],
       .ok (demo_id, "Sheet1".toList)) := by
  have h := (read_sheet_validation demo_env "token".toList
    (some ("https://docs.google.com/spreadsheets/d/".toList ++ demo_id ++ "/edit".toList))
    (some "Sheet1".toList) false rfl (by decide))
  have hfetch : read_sheet_fetch demo_env (some ("https://docs.google.com/spreadsheets/d/".toList
      ++ demo_id ++ "/edit".toList)) (some "Sheet1".toList) false =
      ([{ method := .GET,
          url := SHEET_URL (some demo_id) ("Sheet1".toList ++ "!A2:Z".toList),
          data := [], params := [],
          headers := add_header [] "Authorization".toList
            ("Bearer ".toList ++ "token".toList) }],
       .ok (demo_id, "Sheet1".toList)) := by rfl
  refine ⟨fun hr => ?_, hfetch⟩
  obtain ⟨m, hm⟩ := h.1.mpr hr
  rw [hfetch] at hm
  simp at hm

/-- C11 fails as stated on a string of exactly 44 characters that holds the address of the
service: the claim takes it as the identifier, the source hands it to `extract_id`, which
finds 5 characters after `/d/` and raises an error; no fetch is made. -/
theorem read_sheet_validation_short_url :
    demo_short_url.length = 44 ∧
    read_sheet_fetch demo_env (some demo_short_url) (some "Sheet1".toList) false =
      ([], .error (.INVALID_PARAMETER_VALUE "Invalid Sheet id")) ∧
    read_sheet demo_env no_date_in (some demo_short_url) (some "Sheet1".toList) false
      (region_reply [] [] [["a".toList]]) (sample_reply []) =
      .error (.INVALID_PARAMETER_VALUE "Invalid Sheet id") :=
  ⟨by decide, by rfl, by rfl⟩

/-! ## The credential and the creation reply in a write session -/

theorem read_sheet_fetch_no_credential (env : Env) (url sheet : Option CStr) (header : Bool)
    (h : env.access_token = none ∨ env.access_token = some []) :
    read_sheet_fetch env url sheet header =
      ([], .error (.INVALID_PARAMETER_VALUE "Access token is required")) := by
  rcases h with h | h <;> simp [read_sheet_fetch, h]

theorem write_session_any_credential (env : Env) (rest : List OptionsArg) (response : Jsonb)
    (rows : List DataArg) (st0 : write_state) (log0 : List HttpCall) (hne : rows ≠ [])
    (hinit : init_state env rest response [] = .ok (st0, log0)) :
    ∃ out, write_session env rest response rows = .ok out ∧ puts out.1 ≠ [] := by
  obtain ⟨out, h, hc⟩ := session_put_count env rest response rows st0 log0 hne hinit
  refine ⟨out, h, fun e => ?_⟩
  rw [e] at hc
  simp at hc

/-- C12 fails on the source for write sessions. Without a credential `read_sheet` raises its
error before any transport call, but the write path never looks at the credential: a session
of one row posts the creation request and puts the batch, both under the header
`Authorization: Bearer (null)`, and ends normally. -/
theorem write_session_without_credential :
    (∃ out, write_session demo_env_no_token [] demo_response [demo_row] = .ok out ∧
      out.1.map (fun c => c.method) = [Method.POST, Method.PUT] ∧
      out.1.map (fun c => c.headers) =
        [["Authorization: Bearer (null)".toList, "Content-Type: application/json".toList],
         ["Authorization: Bearer (null)".toList, "Content-Type: application/json".toList]]) ∧
    read_sheet_fetch demo_env_no_token (some demo_id) (some "Sheet1".toList) false =
      ([], .error (.INVALID_PARAMETER_VALUE "Access token is required")) :=
  ⟨⟨_, rfl, by decide, by decide⟩, by rfl⟩

/-- C13 fails on the source. On a reply without the key `spreadsheetId`, `create_new_sheet`
returns normally and leaves the identifier unset; the session goes on and puts its batch at
an address built from the NULL identifier. -/
theorem create_new_sheet_without_id :
    find_spreadsheetId demo_refusal.tokens = none ∧
    (create_new_sheet demo_env none none demo_refusal []).1 = none ∧
    (∃ out, write_session demo_env [] demo_refusal [demo_row] = .ok out ∧
      (puts out.1).map (fun c => c.url) =
        ["https://sheets.googleapis.com/v4/spreadsheets/(null)/values/Sheet1!A1".toList]) :=
  ⟨by decide, by rfl, ⟨_, rfl, by decide⟩⟩

/-! ## Closing a buffer twice -/

theorem close_buffer_ends (b : CStr) : ∃ c, close_buffer b = c ++ ['\x7d'] :=
  ⟨remove_trailing_comma b ++ [']'], by simp [close_buffer]⟩

/-- C14, as the source has it: `close_buffer` on an already closed buffer removes nothing,
the closed buffer ending in a brace and not in a comma, and appends the two closing
characters once more; the result differs from the closed buffer. -/
theorem close_buffer_twice (b : CStr) :
    remove_trailing_comma (close_buffer b) = close_buffer b ∧
    close_buffer (close_buffer b) = close_buffer b ++ [']', '\x7d'] ∧
    close_buffer (close_buffer b) ≠ close_buffer b := by
  obtain ⟨c, hc⟩ := close_buffer_ends b
  have h1 : remove_trailing_comma (close_buffer b) = close_buffer b := by
    rw [hc]; exact remove_trailing_comma_other c _ (by decide)
  have h2 : close_buffer (close_buffer b) = close_buffer b ++ [']', '\x7d'] := by
    conv_lhs => rw [close_buffer, h1]
  refine ⟨h1, h2, fun e => ?_⟩
  have := congrArg List.length e
  rw [h2] at this
  simp at this

/-- C14 fails as stated: the buffer that holds one row closes to a JSON object of one row, and
closing it again gives a text with two more characters that is not JSON. -/
theorem close_buffer_twice_one_row :
    close_buffer (open_buffer [append_data demo_row]) = "\x7b\"values\": [[\"x\"]]\x7d".toList ∧
    close_buffer (close_buffer (open_buffer [append_data demo_row])) =
      "\x7b\"values\": [[\"x\"]]\x7d]\x7d".toList ∧
    close_buffer (close_buffer (open_buffer [append_data demo_row])) ≠
      close_buffer (open_buffer [append_data demo_row]) ∧
    parse_payload (close_buffer (open_buffer [append_data demo_row])) = some [["x".toList]] ∧
    parse_payload (close_buffer (close_buffer (open_buffer [append_data demo_row]))) = none :=
  ⟨by decide, by decide, by decide, by decide, by decide⟩

/-! ## The invariant of the write state -/

theorem rows_toks_append (a b : List (List CStr)) (ha : a ≠ []) (hb : b ≠ []) :
    rows_toks (a ++ b) = rows_toks a ++ JTok.comma :: rows_toks b := by
  obtain ⟨r, t, rfl⟩ := List.exists_cons_of_ne_nil ha
  obtain ⟨s, u, rfl⟩ := List.exists_cons_of_ne_nil hb
  simp [rows_toks]

theorem flatten_ne_nil_of_head {α : Type} (x : List α) (t : List (List α)) (hx : x ≠ []) :
    (x :: t).flatten ≠ [] := by
  obtain ⟨a, l, rfl⟩ := List.exists_cons_of_ne_nil hx
  simp

theorem Lexes.items : ∀ (xs : List (CStr × List (List CStr))),
    (∀ x ∈ xs, Lexes x.1 (rows_toks x.2) ∧ x.2 ≠ []) →
    Lexes ([','].intercalate (xs.map Prod.fst)) (rows_toks (xs.map Prod.snd).flatten) := by
  intro xs
  induction xs with
  | nil => intro _; exact Lexes.nil
  | cons x t ih =>
    intro h
    obtain ⟨hx, hxne⟩ := h x (List.mem_cons_self _ _)
    have ht := ih (fun y hy => h y (List.mem_cons_of_mem _ hy))
    cases t with
    | nil => simpa [List.intercalate] using hx
    | cons y t =>
      have hyne : ((y :: t).map Prod.snd).flatten ≠ [] :=
        flatten_ne_nil_of_head _ _ (h y (List.mem_cons_of_mem _ (List.mem_cons_self _ _))).2
      have h3 := (hx.append Lexes.comma).append ht
      rw [List.map_cons, List.map_cons, intercalate_cons_cons, List.map_cons,
        List.flatten_cons, rows_toks_append _ _ hxne hyne]
      simpa using h3

theorem parse_payload_items (xs : List (CStr × List (List CStr)))
    (h : ∀ x ∈ xs, Lexes x.1 (rows_toks x.2) ∧ x.2 ≠ []) :
    parse_payload (payload_items (xs.map Prod.fst)) = some (xs.map Prod.snd).flatten := by
  have h1 := ((Lexes.opening.append (Lexes.items xs h)).append
    (Lexes.rbrack.append Lexes.rbrace)) []
  have e : lex_out [] = some [] := by simp [lex_out]
  rw [e] at h1
  simp only [List.append_nil, Option.map_some'] at h1
  have h2 : lex_out (payload_items (xs.map Prod.fst)) =
      some ([JTok.lbrace, JTok.str "values".toList, JTok.colon, JTok.lbrack] ++
        rows_toks (xs.map Prod.snd).flatten ++ [JTok.rbrack, JTok.rbrace]) := h1
  simp only [parse_payload, h2, List.cons_append, List.nil_append, List.append_assoc]
  rw [parse_opening, parse_rows, parse_closing]

theorem flatten_singletons {α β : Type} (g : α → β) : ∀ (b : List α),
    (b.map (fun x => [g x])).flatten = b.map g := by
  intro b
  induction b with
  | nil => rfl
  | cons x t ih => simp [ih]

theorem parse_payload_rows (b : List (CStr × List CStr))
    (h : ∀ x ∈ b, Lexes x.1 (rows_toks [x.2])) :
    parse_payload (payload_items (b.map Prod.fst)) = some (b.map Prod.snd) := by
  have := parse_payload_items (b.map (fun x => (x.1, [x.2]))) (by
    intro x hx
    obtain ⟨y, hy, rfl⟩ := List.mem_map.mp hx
    exact ⟨h y hy, by simp⟩)
  simp only [List.map_map, Function.comp_def] at this
  rw [flatten_singletons Prod.snd b] at this
  exact this

theorem rows_toks_single (r : List CStr) :
    rows_toks [r] = JTok.lbrack :: texts_toks r ++ [JTok.rbrack] := by
  simp [rows_toks]

theorem session_pairs_read (hfv : ∀ f, field_val f = f.getD []) (rest : List OptionsArg)
    (labels : List CStr) (rows : List DataArg)
    (hplain : plain_rows rows) (hhdr : header_reads rest labels) :
    ∀ x ∈ session_pairs rest labels rows, Lexes x.1 (rows_toks [x.2]) := by
  intro x hx
  rcases List.mem_append.mp hx with h | h
  · obtain ⟨hd, hh, rfl⟩ := List.mem_map.mp h
    exact hhdr hd (by
      cases hi : header_item rest with
      | none => simp [hi] at hh
      | some v => simp [hi] at hh; rw [hh])
  · obtain ⟨d, hd, rfl⟩ := List.mem_map.mp h
    rw [rows_toks_single]
    exact Lexes.row_of hfv d (hplain d hd)

theorem session_pairs_fst (rest : List OptionsArg) (labels : List CStr) (rows : List DataArg) :
    (session_pairs rest labels rows).map Prod.fst = session_items rest rows := by
  simp [session_pairs, session_items, Function.comp_def]

theorem session_pairs_snd (rest : List OptionsArg) (labels : List CStr) (rows : List DataArg) :
    (session_pairs rest labels rows).map Prod.snd = session_rows rest labels rows := by
  simp [session_pairs, session_rows, Function.comp_def]

theorem mem_of_mem_batches {α : Type} (n : Nat) (l b : List α) (x : α)
    (hb : b ∈ batches_of n l) (hx : x ∈ b) : x ∈ l := by
  rw [← batches_of_flatten n l]
  exact List.mem_flatten.mpr ⟨b, hb, hx⟩

/-- The payloads of the batches of a session read back as the batches of its rows. -/
theorem batches_read (hfv : ∀ f, field_val f = f.getD []) (rest : List OptionsArg)
    (labels : List CStr) (rows : List DataArg)
    (hplain : plain_rows rows) (hhdr : header_reads rest labels) :
    (session_batches (session_items rest rows)).map (fun b => parse_payload (payload_items b)) =
      (session_batches (session_rows rest labels rows)).map some := by
  have hl1 : (session_items rest rows).length = (session_pairs rest labels rows).length := by
    rw [← session_pairs_fst rest labels rows, List.length_map]
  have hl2 : (session_rows rest labels rows).length = (session_pairs rest labels rows).length := by
    rw [← session_pairs_snd rest labels rows, List.length_map]
  simp only [session_batches, hl1, hl2]
  rw [← session_pairs_fst rest labels rows, ← session_pairs_snd rest labels rows,
    batches_of_map, batches_of_map, List.map_map, List.map_map]
  apply List.map_congr_left
  intro b hb
  simp only [Function.comp_apply]
  exact parse_payload_rows b (fun x hx =>
    session_pairs_read hfv rest labels rows hplain hhdr x (mem_of_mem_batches _ _ b x hb hx))

/-! ## The rows the payloads of a session hold -/

/-- The payloads of a session whose texts are plain read back as the batches of its rows. -/
theorem session_read (hfv : ∀ f, field_val f = f.getD []) (env : Env)
    (rest : List OptionsArg) (response : Jsonb)
    (rows : List DataArg) (labels : List CStr) (st0 : write_state) (log0 : List HttpCall)
    (hne : rows ≠ []) (hinit : init_state env rest response [] = .ok (st0, log0))
    (hplain : plain_rows rows) (hhdr : header_reads rest labels) :
    ∃ out, write_session env rest response rows = .ok out ∧
      (puts out.1).map (fun c => parse_payload c.data) =
        (session_batches (session_rows rest labels rows)).map some := by
  obtain ⟨notice, h⟩ := session_calls env rest response rows st0 log0 hne hinit
  obtain ⟨_, _, _, hp⟩ := init_state_inv env rest response st0 log0 hinit
  refine ⟨_, h, ?_⟩
  have hd : (puts (log0 ++ tile32 env st0.spreadsheet_id st0.sheet_name 1
      (session_batches (session_items rest rows)))).map (fun c => c.data) =
      (session_batches (session_items rest rows)).map payload_items := by
    rw [puts_append, hp, List.nil_append, puts_tile32, tile32_data]
  have h2 := congrArg (List.map parse_payload) hd
  simp only [List.map_map] at h2
  exact h2.trans (batches_read hfv rest labels rows hplain hhdr)

/-- For texts that are plain, the rows read back from the payloads of a session, in the
order of the calls, are the rows of the session in their order, none dropped or doubled. -/
theorem session_rows_read_back (env : Env) (rest : List OptionsArg) (response : Jsonb)
    (rows : List DataArg) (labels : List CStr) (st0 : write_state) (log0 : List HttpCall)
    (hne : rows ≠ []) (hinit : init_state env rest response [] = .ok (st0, log0))
    (hplain : plain_rows rows) (hhdr : header_reads rest labels) :
    ∃ (out : List HttpCall × CStr) (batches : List (List (List CStr))),
      write_session env rest response rows = .ok out ∧
      (puts out.1).map (fun c => parse_payload c.data) = batches.map some ∧
      batches.flatten = session_rows rest labels rows ∧
      (batches.map List.length).sum = (session_rows rest labels rows).length := by
  obtain ⟨out, h, hr⟩ := session_read (fun f => by cases f <;> rfl) env rest response rows
    labels st0 log0 hne hinit hplain hhdr
  exact ⟨out, _, h, hr, batches_of_flatten _ _, batches_of_sum _ _⟩

/-- C1 fails on the source: the writer puts a text between double quotes without escaping
it, so the payload of a stream of the one row whose field is `x"],["y` holds two rows, `x`
and `y`, neither of them the input row: one row went in, two are in the payload. -/
theorem write_session_quote_row_splits :
    ∃ out, write_session demo_env [] demo_response [demo_quote_row] = .ok out ∧
      (puts out.1).map (fun c => c.data) =
        ["\x7b\"values\": [[\"x\"],[\"y\"]]\x7d".toList] ∧
      (puts out.1).map (fun c => parse_payload c.data) =
        [some [["x".toList], ["y".toList]]] ∧
      [demo_quote_row].map row_texts = [["x\"],[\"y".toList]] :=
  ⟨_, rfl, by decide, by decide, by decide⟩

/-! ## The rows the calls of a session lay on the sheet -/

theorem header_reads_demo : header_reads [OptionsArg.jsonb demo_options] ["label".toList] := by
  intro h hh
  have e : h = "[\"label\"]".toList := by
    have : header_item [OptionsArg.jsonb demo_options] = some "[\"label\"]".toList := rfl
    rw [this] at hh
    exact (Option.some.inj hh).symm
  subst e
  exact Lexes.lbrack.append ((Lexes.str "label".toList (by decide)).append Lexes.rbrack)

end GSheets
